import Mathlib

/-!
Verification of the AZ-104 exam-simulator PDF ingestion pipeline
(`backend/app/services/parser.py`, `backend/app/services/domain_classifier.py`).

Strings are modelled as `List Char` (`Str`).  Python regular expressions used
by the pipeline are hand-translated into deterministic recursive matchers that
implement the leftmost-match / greedy / lazy semantics of the specific
patterns involved (each matcher is documented with the pattern it embeds).
`hashlib.sha256` is modelled by a full SHA-256 implementation over `Nat`
bytes; Python machine words are `Nat` reduced `% 2^32`.
-/

namespace AZ104

abbrev Str := List Char

/-- `s.data` of a string literal, as our `List Char` representation. -/
def sl (s : String) : Str := s.data

/-- ASCII lower-casing of one character (Python `str.lower` restricted to ASCII,
which is all the pipeline's keywords and markers use). -/
def lowerC (c : Char) : Char :=
  if 'A' ≤ c ∧ c ≤ 'Z' then Char.ofNat (c.toNat + 32) else c

/-- ASCII upper-casing of one character (Python `str.upper` on ASCII). -/
def upperC (c : Char) : Char :=
  if 'a' ≤ c ∧ c ≤ 'z' then Char.ofNat (c.toNat - 32) else c

def lowerS (s : Str) : Str := s.map lowerC

def upperS (s : Str) : Str := s.map upperC

/-- Python regex `\s` / `str.strip` whitespace (ASCII range). -/
def isSpaceC (c : Char) : Bool :=
  c = ' ' ∨ c = '\t' ∨ c = '\n' ∨ c = '\r' ∨ c = '\x0b' ∨ c = '\x0c'

/-- Python regex `\d` (ASCII digits). -/
def isDigitC (c : Char) : Bool := '0' ≤ c ∧ c ≤ '9'

/-- Python regex `\w` word character (ASCII letters, digits, underscore). -/
def isWordC (c : Char) : Bool :=
  ('a' ≤ c ∧ c ≤ 'z') ∨ ('A' ≤ c ∧ c ≤ 'Z') ∨ ('0' ≤ c ∧ c ≤ '9') ∨ c = '_'

/-- Character class `[:\s]` used by the answer/explanation patterns. -/
def isColonSpace (c : Char) : Bool := c = ':' ∨ isSpaceC c

/-- Character class `[,\s]` used by the answer patterns. -/
def isCommaSpace (c : Char) : Bool := c = ',' ∨ isSpaceC c

/-- Character class `[A-F]` under `re.IGNORECASE`. -/
def isAF (c : Char) : Bool := ('A' ≤ c ∧ c ≤ 'F') ∨ ('a' ≤ c ∧ c ≤ 'f')

/-- Length of the maximal prefix of `s` whose characters satisfy `p`. -/
def countLeading (p : Char → Bool) : Str → Nat
  | [] => 0
  | c :: r => if p c then countLeading p r + 1 else 0

/-- Case-sensitive prefix test. -/
def startsWith : Str → Str → Bool
  | [], _ => true
  | _ :: _, [] => false
  | p :: ps, c :: cs => p = c ∧ startsWith ps cs

/-- Case-insensitive (ASCII) prefix test: does `s` start with `pat`? -/
def startsWithCI (pat s : Str) : Bool := startsWith (lowerS pat) (lowerS s)

/-- Python substring test `needle in hay`. -/
def containsSub (needle : Str) : Str → Bool
  | [] => startsWith needle []
  | c :: r => startsWith needle (c :: r) ∨ containsSub needle r

/-- Python `str.endswith` for one suffix. -/
def endsWith (suf s : Str) : Bool := startsWith suf.reverse s.reverse

/-- Python `str.strip()` (whitespace at both ends). -/
def strip (s : Str) : Str :=
  ((s.dropWhile isSpaceC).reverse.dropWhile isSpaceC).reverse

/-- Worker for `normWS`; the flag records whether we are inside a whitespace
run already rewritten to a single space. -/
def normWSGo : Bool → Str → Str
  | _, [] => []
  | inRun, c :: r =>
    if isSpaceC c then
      (if inRun then normWSGo true r else ' ' :: normWSGo true r)
    else c :: normWSGo false r

/-- Python `re.sub(r'\s+', ' ', s)`: each maximal whitespace run becomes one
space. -/
def normWS (s : Str) : Str := normWSGo false s

/-- Python slice `l[a:b]`. -/
def slice (s : Str) (a b : Nat) : Str := (s.drop a).take (b - a)

/-- Python `'\n'.join` style list join. -/
def joinSep (sep : Str) (parts : List Str) : Str := List.intercalate sep parts

/-! ## SHA-256 (model of Python `hashlib.sha256`)

Bytes and 32-bit words are `Nat`; word arithmetic is reduced `% 2^32`. -/

def w32 : Nat := 4294967296

def add32 (a b : Nat) : Nat := (a + b) % w32

def rotr (n x : Nat) : Nat := x / 2 ^ n + x % 2 ^ n * 2 ^ (32 - n)

def shr (n x : Nat) : Nat := x / 2 ^ n

def notW (x : Nat) : Nat := x ^^^ 4294967295

/-- UTF-8 encoding of one character (Python `str.encode()`). -/
def utf8Bytes (c : Char) : List Nat :=
  let n := c.toNat
  if n < 128 then [n]
  else if n < 2048 then [192 + n / 64, 128 + n % 64]
  else if n < 65536 then [224 + n / 4096, 128 + n / 64 % 64, 128 + n % 64]
  else [240 + n / 262144, 128 + n / 4096 % 64, 128 + n / 64 % 64, 128 + n % 64]

def utf8Encode (s : Str) : List Nat := s.flatMap utf8Bytes

/-- The 64 SHA-256 round constants. -/
def K256 : List Nat :=
  [1116352408, 1899447441, 3049323471, 3921009573,
   961987163, 1508970993, 2453635748, 2870763221,
   3624381080, 310598401, 607225278, 1426881987,
   1925078388, 2162078206, 2614888103, 3248222580,
   3835390401, 4022224774, 264347078, 604807628,
   770255983, 1249150122, 1555081692, 1996064986,
   2554220882, 2821834349, 2952996808, 3210313671,
   3336571891, 3584528711, 113926993, 338241895,
   666307205, 773529912, 1294757372, 1396182291,
   1695183700, 1986661051, 2177026350, 2456956037,
   2730485921, 2820302411, 3259730800, 3345764771,
   3516065817, 3600352804, 4094571909, 275423344,
   430227734, 506948616, 659060556, 883997877,
   958139571, 1322822218, 1537002063, 1747873779,
   1955562222, 2024104815, 2227730452, 2361852424,
   2428436474, 2756734187, 3204031479, 3329325298]

/-- SHA-256 working state / hash value (eight 32-bit words). -/
structure Sha256State where
  a : Nat
  b : Nat
  c : Nat
  d : Nat
  e : Nat
  f : Nat
  g : Nat
  h : Nat
deriving Repr, DecidableEq

def sha256Init : Sha256State :=
  ⟨1779033703, 3144134277, 1013904242, 2773480762,
   1359893119, 2600822924, 528734635, 1541459225⟩

def bigSigma0 (x : Nat) : Nat := rotr 2 x ^^^ rotr 13 x ^^^ rotr 22 x

def bigSigma1 (x : Nat) : Nat := rotr 6 x ^^^ rotr 11 x ^^^ rotr 25 x

def smallSigma0 (x : Nat) : Nat := rotr 7 x ^^^ rotr 18 x ^^^ shr 3 x

def smallSigma1 (x : Nat) : Nat := rotr 17 x ^^^ rotr 19 x ^^^ shr 10 x

def chNat (x y z : Nat) : Nat := (x &&& y) ^^^ (notW x &&& z)

def majNat (x y z : Nat) : Nat := (x &&& y) ^^^ (x &&& z) ^^^ (y &&& z)

/-- One compression round with round key `kw = k + w`. -/
def sha256Round (s : Sha256State) (kw : Nat) : Sha256State :=
  let t1 := add32 s.h (add32 (bigSigma1 s.e) (add32 (chNat s.e s.f s.g) kw))
  let t2 := add32 (bigSigma0 s.a) (majNat s.a s.b s.c)
  ⟨add32 t1 t2, s.a, s.b, s.c, add32 s.d t1, s.e, s.f, s.g⟩

/-- Message-schedule extension: `acc` holds the words produced so far in
reverse; `n` counts the remaining words (48 for a fresh block). -/
def sha256Extend : Nat → List Nat → List Nat
  | 0, acc => acc.reverse
  | n + 1, acc =>
    let wi := add32 (smallSigma1 (acc.getD 1 0))
      (add32 (acc.getD 6 0) (add32 (smallSigma0 (acc.getD 14 0)) (acc.getD 15 0)))
    sha256Extend n (wi :: acc)

/-- Big-endian 32-bit word from four bytes. -/
def wordOfBytes (b0 b1 b2 b3 : Nat) : Nat := ((b0 * 256 + b1) * 256 + b2) * 256 + b3

/-- The sixteen initial schedule words of one 64-byte block. -/
def sha256BlockWords : List Nat → List Nat
  | b0 :: b1 :: b2 :: b3 :: rest => wordOfBytes b0 b1 b2 b3 :: sha256BlockWords rest
  | _ => []

/-- Process one 64-byte block. -/
def sha256Block (s : Sha256State) (block : List Nat) : Sha256State :=
  let ws := sha256Extend 48 (sha256BlockWords block).reverse
  let r := (K256.zip ws).foldl (fun st p => sha256Round st (add32 p.1 p.2)) s
  ⟨add32 s.a r.a, add32 s.b r.b, add32 s.c r.c, add32 s.d r.d,
   add32 s.e r.e, add32 s.f r.f, add32 s.g r.g, add32 s.h r.h⟩

/-- Big-endian 64-bit length field. -/
def lenBytes (n : Nat) : List Nat :=
  [n / 2 ^ 56 % 256, n / 2 ^ 48 % 256, n / 2 ^ 40 % 256, n / 2 ^ 32 % 256,
   n / 2 ^ 24 % 256, n / 2 ^ 16 % 256, n / 2 ^ 8 % 256, n % 256]

/-- SHA-256 padding: `0x80`, zeros to 56 mod 64, then the bit length. -/
def sha256Pad (msg : List Nat) : List Nat :=
  let L := msg.length
  msg ++ 128 :: List.replicate ((64 - (L + 9) % 64) % 64) 0 ++ lenBytes (L * 8)

/-- Split into 64-byte chunks; `fuel` bounds the recursion so the definition
stays structural (callers pass the list length). -/
def chunk64 (fuel : Nat) (l : List Nat) : List (List Nat) :=
  match fuel, l with
  | _, [] => []
  | 0, _ => [l]
  | fuel + 1, l => l.take 64 :: chunk64 fuel (l.drop 64)

def sha256Words (msg : List Nat) : Sha256State :=
  let padded := sha256Pad msg
  (chunk64 padded.length padded).foldl sha256Block sha256Init

def hexDigits : Str := sl "0123456789abcdef"

def hexC (n : Nat) : Char := hexDigits.getD (n % 16) '0'

def byteHex (b : Nat) : Str := [hexC (b / 16), hexC (b % 16)]

def bytesOfWord (w : Nat) : List Nat :=
  [w / 2 ^ 24 % 256, w / 2 ^ 16 % 256, w / 2 ^ 8 % 256, w % 256]

def stateWords (s : Sha256State) : List Nat :=
  [s.a, s.b, s.c, s.d, s.e, s.f, s.g, s.h]

/-- Python `hashlib.sha256(bytes).hexdigest()`. -/
def sha256hex (msg : List Nat) : Str :=
  ((stateWords (sha256Words msg)).flatMap bytesOfWord).flatMap byteHex

/-! ## Data model (`parser.py` dataclasses) -/

/-- One answer choice `{"label": "A", "text": "..."}`; the source stores the
label as a one-character string, modelled here as a `Char`. -/
structure Choice where
  label : Char
  text : Str
deriving Repr, DecidableEq

/-- `ParsedQuestion` (parser.py lines 17-44). -/
structure ParsedQuestion where
  text : Str
  choices : List Choice
  correct_answers : List Char
  explanation : Option Str := none
  question_type : Str := sl "single"
  domain_id : Option Str := none
  source_page : Nat := 0
  exhibit_image : Option Str := none
  series_id : Option Str := none
  sequence_number : Nat := 0
  issues : List Str := []
deriving Repr, DecidableEq

instance : Inhabited ParsedQuestion := ⟨{ text := [], choices := [], correct_answers := [] }⟩

/-- The content string `f"{self.text}|{'|'.join(c['text'] for c in self.choices)}"`. -/
def qContent (q : ParsedQuestion) : Str :=
  q.text ++ ['|'] ++ joinSep ['|'] (q.choices.map (·.text))

/-- `ParsedQuestion.stable_id`: first 16 hex characters of the SHA-256 of the
UTF-8 encoded content. -/
def stable_id (q : ParsedQuestion) : Str :=
  (sha256hex (utf8Encode (qContent q))).take 16

/-- `ParsedQuestion.is_valid`.  Python truthiness of a string/list/option is
non-emptiness. -/
def is_valid (q : ParsedQuestion) : Bool :=
  if q.question_type = sl "study" then
    !q.text.isEmpty && (match q.explanation with | some e => !e.isEmpty | none => false)
  else
    !q.text.isEmpty && !q.choices.isEmpty && !q.correct_answers.isEmpty

/-! ## Domain classifier (`domain_classifier.py`) -/

/-- One taxonomy entry `{"id", "name", "keywords"}`. -/
structure Domain where
  id : Str
  name : Str := []
  keywords : List Str := []
deriving Repr, DecidableEq

/-- `DomainClassifier` configuration (domains list plus default id). -/
structure Classifier where
  domains : List Domain
  default_domain : Str
deriving Repr, DecidableEq

/-- `sum(1 for kw in keywords if kw in text_lower)`. -/
def domScore (text_lower : Str) (d : Domain) : Nat :=
  (d.keywords.filter (fun kw => containsSub kw text_lower)).length

/-- Python dict insertion/update: an existing key keeps its position, a new
key is appended. -/
def upsert (l : List (Str × Nat)) (k : Str) (v : Nat) : List (Str × Nat) :=
  if l.any (fun p => p.1 = k) then
    l.map (fun p => if p.1 = k then (k, v) else p)
  else l ++ [(k, v)]

/-- The `scores` dict built by `DomainClassifier.classify`. -/
def buildScores (C : Classifier) (text_lower : Str) : List (Str × Nat) :=
  C.domains.foldl (fun acc d => upsert acc d.id (domScore text_lower d)) []

/-- Python's `max(iterable, key=...)` loop: keep the first element, replacing
it only on a strictly larger key. -/
def pyBest (p : Str × Nat) (l : List (Str × Nat)) : Str × Nat :=
  l.foldl (fun best q => if best.2 < q.2 then q else best) p

/-- `max(scores, key=scores.get)` over the ordered dict (`none` on empty,
where Python would raise — the caller guards with `if scores:`). -/
def pyMaxPair : List (Str × Nat) → Option (Str × Nat)
  | [] => none
  | p :: rest => some (pyBest p rest)

/-- `DomainClassifier.classify` (domain_classifier.py lines 25-48). -/
def classify (C : Classifier) (text : Str) : Str :=
  if text.isEmpty then C.default_domain
  else
    let scores := buildScores C (lowerS text)
    match pyMaxPair scores with
    | some best => if 0 < best.2 then best.1 else C.default_domain
    | none => C.default_domain

/-- Highest keyword score over the taxonomy (0 when empty). -/
def maxScore (C : Classifier) (text : Str) : Nat :=
  (C.domains.map (domScore (lowerS text))).foldr max 0

/-! ## Answer extraction (`PDFParser.ANSWER_PATTERNS` / `_extract_answers`)

Each Python pattern is translated into a matcher attempted at the start of a
suffix; `reSearch` supplies `re.search`'s leftmost-position scan.  In each
pattern the bounded quantifiers (`[:\s]+`, `[,\s]*`, `[s]?`) are followed by
tokens disjoint from their character class, so backtracking them below the
greedy maximum can never succeed and the maximal-munch translation is
faithful; comments note this where it applies. -/

/-- Leftmost-match scan of `re.search`: try the matcher at every suffix. -/
def reSearch (f : Str → Option Str) : Str → Option Str
  | [] => f []
  | c :: r =>
    match f (c :: r) with
    | some g => some g
    | none => reSearch f r

/-- Lookahead `(?=\n|Explanation|Reference|$)` of `ANSWER_PATTERNS[0]` (the
before-final-newline case of `$` is subsumed by the `\n` alternative). -/
def ansLook1 : Str → Bool
  | [] => true
  | c :: r => c = '\n' ∨ startsWithCI (sl "explanation") (c :: r) ∨
      startsWithCI (sl "reference") (c :: r)

/-- Lazy repetition `(?:[,\s]*[A-F])*?` terminated by `ansLook1`: extend the
group with the fewest repetitions whose end satisfies the lookahead.  `fuel`
bounds the recursion; callers pass `rest.length + 1`, which each step's
consumption of at least one character never exhausts. -/
def lazyReps1 : Nat → Str → Str → Option Str
  | 0, _, _ => none
  | fuel + 1, acc, rest =>
    if ansLook1 rest then some acc
    else
      let m := countLeading isCommaSpace rest
      match rest.drop m with
      | [] => none
      | c :: r =>
        if isAF c then lazyReps1 fuel (acc ++ rest.take m ++ [c]) r else none

/-- Greedy repetition `(?:[,\s]*[A-F])*` at the end of a pattern: take the
most repetitions possible. -/
def greedyReps : Nat → Str → Str → Str
  | 0, acc, _ => acc
  | fuel + 1, acc, rest =>
    let m := countLeading isCommaSpace rest
    match rest.drop m with
    | [] => acc
    | c :: r =>
      if isAF c then greedyReps fuel (acc ++ rest.take m ++ [c]) r else acc

/-- The captured group `([A-F](?:[,\s]*[A-F])*?)` with its terminating
lookahead (shared tail of `ANSWER_PATTERNS[0]`). -/
def lazyGroup1 (u : Str) : Option Str :=
  match u with
  | [] => none
  | c :: r2 => if isAF c then lazyReps1 (r2.length + 1) [c] r2 else none

/-- The captured group `([A-F](?:[,\s]*[A-F])*)` at the end of a pattern
(shared tail of `ANSWER_PATTERNS[1]` and `ANSWER_PATTERNS[3]`). -/
def greedyGroup (u : Str) : Option Str :=
  match u with
  | [] => none
  | c :: r5 => if isAF c then some (greedyReps (r5.length + 1) [c] r5) else none

/-- The captured group `([A-F])` followed by `\b` (tail of
`ANSWER_PATTERNS[2]`). -/
def singleGroup (u : Str) : Option Str :=
  match u with
  | [] => none
  | c :: r2 =>
    if isAF c then
      match r2 with
      | [] => some [c]
      | d :: _ => if isWordC d then none else some [c]
    else none

/-- `ANSWER_PATTERNS[0]`:
`Answer[:\s]+([A-F](?:[,\s]*[A-F])*?)(?=\n|Explanation|Reference|$)` (ci). -/
def matchA1At (s : Str) : Option Str :=
  if startsWithCI (sl "answer") s then
    let r1 := s.drop 6
    let k := countLeading isColonSpace r1
    if k = 0 then none
    else lazyGroup1 (r1.drop k)
  else none

/-- `ANSWER_PATTERNS[1]`: `Correct\s+Answer[s]?[:\s]+([A-F](?:[,\s]*[A-F])*)`
(ci).  The optional `s` is consumed when present: retrying without it would
put `[:\s]+` on the `s` itself and fail. -/
def matchA2At (s : Str) : Option Str :=
  if startsWithCI (sl "correct") s then
    let r1 := s.drop 7
    let k1 := countLeading isSpaceC r1
    if k1 = 0 then none
    else
      let r2 := r1.drop k1
      if startsWithCI (sl "answer") r2 then
        let r3 := r2.drop 6
        let r4 := if startsWithCI (sl "s") r3 then r3.drop 1 else r3
        let k2 := countLeading isColonSpace r4
        if k2 = 0 then none
        else greedyGroup (r4.drop k2)
      else none
  else none

/-- `ANSWER_PATTERNS[2]`: `Answer[:\s]+([A-F])\b` (ci). -/
def matchA3At (s : Str) : Option Str :=
  if startsWithCI (sl "answer") s then
    let r1 := s.drop 6
    let k := countLeading isColonSpace r1
    if k = 0 then none
    else singleGroup (r1.drop k)
  else none

/-- `ANSWER_PATTERNS[3]`: `\*\*Answer[s]?\*\*[:\s]*([A-F](?:[,\s]*[A-F])*)`
(ci). -/
def matchA4At (s : Str) : Option Str :=
  if startsWith (sl "**") s then
    let r1 := s.drop 2
    if startsWithCI (sl "answer") r1 then
      let r2 := r1.drop 6
      let r3 := if startsWithCI (sl "s") r2 then r2.drop 1 else r2
      if startsWith (sl "**") r3 then
        let r4 := r3.drop 2
        let k := countLeading isColonSpace r4
        greedyGroup (r4.drop k)
      else none
    else none
  else none

/-- The ordered `ANSWER_PATTERNS` list, each wrapped in its `search`. -/
def answerSearches : List (Str → Option Str) :=
  [reSearch matchA1At, reSearch matchA2At, reSearch matchA3At, reSearch matchA4At]

/-- `re.findall(r'[A-F]', answer_text.upper())`. -/
def lettersAF (g : Str) : Str :=
  (upperS g).filter (fun c => decide ('A' ≤ c) && decide (c ≤ 'F'))

/-- The `for pattern in self.ANSWER_PATTERNS` loop of `_extract_answers`:
on a match, return the found letters unless none were found, in which case
fall through to the next pattern. -/
def extractAnswersGo : List (Str → Option Str) → Str → List Char
  | [], _ => []
  | f :: fs, block =>
    match f block with
    | some g =>
      let a := lettersAF g
      if a.isEmpty then extractAnswersGo fs block else a
    | none => extractAnswersGo fs block

/-- `PDFParser._extract_answers` (parser.py lines 551-561). -/
def extract_answers (block : Str) : List Char := extractAnswersGo answerSearches block

/-- Modelled from the spec: the claimed behaviour of answer extraction — the
*first* pattern whose search matches determines the result, with no
fall-through.  Compared against `extract_answers` in the theorem for C3. -/
def firstPatternGroup : List (Str → Option Str) → Str → Option Str
  | [], _ => none
  | f :: fs, block =>
    match f block with
    | some g => some g
    | none => firstPatternGroup fs block

/-- Modelled from the spec: result of the first matching answer pattern. -/
def answersSpec (block : Str) : List Char :=
  match firstPatternGroup answerSearches block with
  | some g => lettersAF g
  | none => []

/-! ## Explanation extraction (`EXPLANATION_PATTERN` / `_extract_explanation`) -/

/-- Lookahead `(?=Q\d+|QUESTION|$)` (ci, whole pattern DOTALL); `$` matches at
the end of the string or just before a final newline. -/
def explLook : Str → Bool
  | [] => true
  | c :: r =>
    ((c = 'Q' ∨ c = 'q') ∧ 0 < countLeading isDigitC r) ∨
      startsWithCI (sl "question") (c :: r) ∨ (c = '\n' ∧ r = [])

/-- Lazy `(.+?)` (DOTALL) after its mandatory first character: extend until
`explLook` holds (always true at the end of input). -/
def lazyDot : Nat → Str → Str → Str
  | 0, acc, _ => acc
  | fuel + 1, acc, rest =>
    if explLook rest then acc
    else
      match rest with
      | [] => acc
      | c :: r => lazyDot fuel (acc ++ [c]) r

/-- `EXPLANATION_PATTERN` attempted at the start of `s`:
`(?:Explanation|Reference|Note)[:\s]*(.+?)(?=Q\d+|QUESTION|$)` (ci, DOTALL).
The three marker alternatives begin with distinct letters, so at most one can
apply; `[:\s]*` backtracks just enough to leave `( .+? )` one character. -/
def matchExplAt (s : Str) : Option Str :=
  let tail :=
    if startsWithCI (sl "explanation") s then some (s.drop 11)
    else if startsWithCI (sl "reference") s then some (s.drop 9)
    else if startsWithCI (sl "note") s then some (s.drop 4)
    else none
  match tail with
  | none => none
  | some r =>
    if r.isEmpty then none
    else
      let k := min (countLeading isColonSpace r) (r.length - 1)
      match r.drop k with
      | [] => none
      | c :: rest => some (lazyDot (rest.length + 1) [c] rest)

/-- The whitespace-normalized captured group of `EXPLANATION_PATTERN`
(`match.group(1).strip()` then `re.sub(r'\s+', ' ', ...)`). -/
def explCaptured (block : Str) : Option Str :=
  (reSearch matchExplAt block).map (fun g => normWS (strip g))

/-- `PDFParser._extract_explanation` (parser.py lines 563-571). -/
def extract_explanation (block : Str) : Option Str :=
  match reSearch matchExplAt block with
  | some g =>
    let e := normWS (strip g)
    if 20 < e.length then some (e.take 2000) else none
  | none => none

/-! ## Block segmentation (`PDFParser._split_into_blocks`)

The three split patterns are pure lookaheads, so every match is zero-width;
`re.split` then cuts the string at each match position (after an empty match
the scan advances one character, so consecutive positions may both cut). -/

/-- `\s*\d`-style tail check shared by the `QUESTION` split pattern. -/
def wsDigit (v : Str) : Bool :=
  ((v.drop (countLeading isSpaceC v)).head?.map isDigitC).getD false

/-- `[:\.]?\s*\d+` with the optional punctuation backtracked when consuming
it blocks the digit. -/
def questionNumTail : Str → Bool
  | [] => false
  | c :: u' => if c = ':' ∨ c = '.' then (wsDigit u' || wsDigit (c :: u')) else wsDigit (c :: u')

/-- Zero-width `(?=^Q\d+\n)` (MULTILINE): at a line start, `Q`, at least one
digit, then a newline. -/
def splitM1 (atLS : Bool) (s : Str) : Bool :=
  match s with
  | 'Q' :: r =>
    atLS && (let d := countLeading isDigitC r
             decide (0 < d) && ((r.drop d).head?.map (· == '\n')).getD false)
  | _ => false

/-- Zero-width `(?=QUESTION\s*(?:NO)?[:\.]?\s*\d+)` (ci): the optional `NO`
is tried first, then the alternative without it. -/
def splitM2 (_ : Bool) (s : Str) : Bool :=
  startsWithCI (sl "question") s &&
    (let t := s.drop 8
     let t1 := t.drop (countLeading isSpaceC t)
     (startsWithCI (sl "no") t1 && questionNumTail (t1.drop 2)) || questionNumTail t1)

/-- Zero-width `(?=^\d+[\.\)]\s+)` (MULTILINE). -/
def splitM3 (atLS : Bool) (s : Str) : Bool :=
  atLS && (let d := countLeading isDigitC s
           decide (0 < d) && match s.drop d with
                             | c :: r => (c == '.' || c == ')') && ((r.head?.map isSpaceC).getD false)
                             | [] => false)

/-- `re.split` with a zero-width pattern: cut before every position where
`matchAt` holds (`atLS` tracks MULTILINE `^`: start of string or after a
newline). -/
def reSplitGo (matchAt : Bool → Str → Bool) (atLS : Bool) (cur : Str)
    (pieces : List Str) : Str → List Str
  | [] => pieces ++ [cur]
  | c :: r =>
    if matchAt atLS (c :: r) then
      reSplitGo matchAt (c = '\n') [c] (pieces ++ [cur]) r
    else
      reSplitGo matchAt (c = '\n') (cur ++ [c]) pieces r

def reSplit (matchAt : Bool → Str → Bool) (s : Str) : List Str :=
  reSplitGo matchAt true [] [] s

/-- `PDFParser._split_into_blocks` (parser.py lines 363-376). -/
def split_into_blocks (text : Str) : List Str :=
  let b1 := reSplit splitM1 text
  let b2 := if b1.length < 2 then reSplit splitM2 text else b1
  let b3 := if b2.length < 2 then reSplit splitM3 text else b2
  (b3.map strip).filter (fun b => !b.isEmpty)

/-! ## Whitespace reconstruction (`PDFParser._fix_word_spacing` and
`_fix_word_spacing_preserve_paragraphs`) -/

def isLowerC (c : Char) : Bool := 'a' ≤ c ∧ c ≤ 'z'

def isUpperC (c : Char) : Bool := 'A' ≤ c ∧ c ≤ 'Z'

def isLetterC (c : Char) : Bool := isLowerC c || isUpperC c

/-- `re.sub(r'([a-z])([A-Z])', r'\1 \2', text)`. -/
def pairSubLU : Str → Str
  | a :: b :: rest =>
    if isLowerC a && isUpperC b then a :: ' ' :: b :: pairSubLU rest
    else a :: pairSubLU (b :: rest)
  | s => s

def isSentPunct (c : Char) : Bool :=
  c = '.' ∨ c = '!' ∨ c = '?' ∨ c = ',' ∨ c = ':' ∨ c = ';'

/-- `re.sub(r'([.!?,:;])([A-Za-z])', r'\1 \2', text)`. -/
def pairSubPL : Str → Str
  | a :: b :: rest =>
    if isSentPunct a && isLetterC b then a :: ' ' :: b :: pairSubPL rest
    else a :: pairSubPL (b :: rest)
  | s => s

/-- `re.sub(r'([a-zA-Z])\(', r'\1 (', text)`. -/
def pairSubParenO : Str → Str
  | a :: '(' :: rest =>
    if isLetterC a then a :: ' ' :: '(' :: pairSubParenO rest
    else a :: pairSubParenO ('(' :: rest)
  | a :: b :: rest => a :: pairSubParenO (b :: rest)
  | s => s

/-- `re.sub(r'\)([a-zA-Z])', r') \1', text)`. -/
def pairSubParenC : Str → Str
  | ')' :: b :: rest =>
    if isLetterC b then ')' :: ' ' :: b :: pairSubParenC rest
    else ')' :: pairSubParenC (b :: rest)
  | a :: b :: rest => a :: pairSubParenC (b :: rest)
  | s => s

/-- `re.sub(rf'\b{w}\b', repl, s, flags=re.IGNORECASE)` for a literal word
`w`: case-insensitive whole-word replacement, scanning left to right over the
original text (`prevWord` tracks the word-ness of the previous original
character for the leading `\b`).  `fuel` bounds the recursion; callers pass
`s.length + 1`. -/
def subWordCI (w repl : Str) : Nat → Bool → Str → Str
  | 0, _, s => s
  | _, _, [] => []
  | fuel + 1, prevWord, c :: r =>
    if !prevWord && !w.isEmpty && startsWithCI w (c :: r) &&
        (((c :: r).drop w.length).head?.map (fun d => !isWordC d)).getD true then
      repl ++ subWordCI w repl fuel
        ((((c :: r).take w.length).getLast?.map isWordC).getD prevWord)
        ((c :: r).drop w.length)
    else c :: subWordCI w repl fuel (isWordC c) r

/-- `re.sub(w, repl, s, flags=re.IGNORECASE)` for a literal pattern `w`
(no word boundaries). -/
def subLitCI (w repl : Str) : Nat → Str → Str
  | 0, s => s
  | _, [] => []
  | fuel + 1, c :: r =>
    if !w.isEmpty && startsWithCI w (c :: r) then
      repl ++ subLitCI w repl fuel ((c :: r).drop w.length)
    else c :: subLitCI w repl fuel r

/-- The abbreviation table of `_fix_word_spacing` (applied with `\b...\b`). -/
def abbreviationSubs : List (Str × Str) :=
  [(sl "qis", sl "question is"), (sl "qin", sl "question in"),
   (sl "qs", sl "questions"), (sl "qsets", sl "question sets"),
   (sl "qset", sl "question set")]

/-- The concatenated-words table of `_fix_word_spacing`. -/
def concatSubs : List (Str × Str) :=
  [(sl "Youhave", sl "You have"), (sl "Youneed", sl "You need"),
   (sl "Youare", sl "You are"), (sl "Youplan", sl "You plan"),
   (sl "Youwant", sl "You want"), (sl "Whatshould", sl "What should"),
   (sl "Whichof", sl "Which of"), (sl "tothe", sl "to the"),
   (sl "ofthe", sl "of the"), (sl "inthe", sl "in the"),
   (sl "onthe", sl "on the"), (sl "fromthe", sl "from the"),
   (sl "allthe", sl "all the"), (sl "thatthe", sl "that the"),
   (sl "isthe", sl "is the"), (sl "forthe", sl "for the"),
   (sl "andthe", sl "and the"), (sl "thata", sl "that a"),
   (sl "tocreate", sl "to create"), (sl "toensure", sl "to ensure"),
   (sl "tomake", sl "to make"), (sl "toreference", sl "to reference"),
   (sl "todeploy", sl "to deploy"), (sl "toachieve", sl "to achieve"),
   (sl "shouldyou", sl "should you"), (sl "doyou", sl "do you"),
   (sl "canyou", sl "can you")]

/-- `PDFParser._fix_word_spacing` (parser.py lines 622-687). -/
def fix_word_spacing (text : Str) : Str :=
  if text.isEmpty then text
  else
    let t1 := pairSubLU text
    let t2 := pairSubPL t1
    let t3 := pairSubParenO t2
    let t4 := pairSubParenC t3
    let t5 := abbreviationSubs.foldl (fun t p => subWordCI p.1 p.2 (t.length + 1) false t) t4
    let t6 := concatSubs.foldl (fun t p => subLitCI p.1 p.2 (t.length + 1) t) t5
    strip (normWS t6)

/-- Python `text.split('\n')`. -/
def splitNL : Str → List Str
  | [] => [[]]
  | '\n' :: r => [] :: splitNL r
  | c :: r =>
    match splitNL r with
    | h :: t => (c :: h) :: t
    | [] => [[c]]

/-- The section-start prefixes of `_fix_word_spacing_preserve_paragraphs`
(`re.match`, so anchored at the start of the stripped line, ci). -/
def isSectionStart (l : Str) : Bool :=
  [sl "Note:", sl "Solution:", sl "After you", sl "You ", sl "Your ",
   sl "From ", sl "To answer", sl "Each ", sl "Some ", sl "Does ",
   sl "What ", sl "Which ", sl "How "].any (fun p => startsWithCI p l)

/-- The line-grouping loop of `_fix_word_spacing_preserve_paragraphs`. -/
def fwsPPGo (cur : List Str) : List Str → List Str
  | [] =>
    if cur.isEmpty then [] else [fix_word_spacing (joinSep [' '] cur)]
  | l :: ls =>
    let l := strip l
    if l.isEmpty then
      if cur.isEmpty then fwsPPGo [] ls
      else fix_word_spacing (joinSep [' '] cur) :: fwsPPGo [] ls
    else if isSectionStart l && !cur.isEmpty then
      fix_word_spacing (joinSep [' '] cur) :: fwsPPGo [l] ls
    else fwsPPGo (cur ++ [l]) ls

/-- `PDFParser._fix_word_spacing_preserve_paragraphs` (parser.py 573-620). -/
def fwsPP (text : Str) : Str :=
  if text.isEmpty then text
  else joinSep (sl "\n\n") (fwsPPGo [] (splitNL text))

/-! ## Question text extraction (`PDFParser._extract_question_text`) -/

/-- `re.sub(r'^Q\d+\n', '', block, flags=re.MULTILINE)`: drop every line that
is exactly `Q` plus digits. -/
def removeQLines : Nat → Bool → Str → Str
  | 0, _, s => s
  | _, _, [] => []
  | fuel + 1, atLS, c :: r =>
    if atLS && c == 'Q' then
      let d := countLeading isDigitC r
      if decide (0 < d) && ((r.drop d).head?.map (· == '\n')).getD false then
        removeQLines fuel true (r.drop (d + 1))
      else c :: removeQLines fuel false r
    else c :: removeQLines fuel (c == '\n') r

/-- `\d+[:\.\s]*` after optional whitespace: the remainder of the header
match, or `none` when no digit is found. -/
def digitsTail (v : Str) : Option Str :=
  let v1 := v.drop (countLeading isSpaceC v)
  let d := countLeading isDigitC v1
  if d = 0 then none
  else
    let v2 := v1.drop d
    some (v2.drop (countLeading (fun c => c == ':' || c == '.' || isSpaceC c) v2))

/-- `[:\.]?\s*\d+[:\.\s]*`, trying the optional punctuation first. -/
def headerTail (u : Str) : Option Str :=
  match (if ((u.head?.map (fun c => c == ':' || c == '.')).getD false)
         then digitsTail (u.drop 1) else none) with
  | some rest => some rest
  | none => digitsTail u

/-- `re.sub(r'^QUESTION\s*(?:NO)?[:\.]?\s*\d+[:\.\s]*', '', text, re.I)`:
anchored at the start of the string, at most one removal; `NO` is tried
before its absence. -/
def stripQuestionHeader (t : Str) : Str :=
  if startsWithCI (sl "question") t then
    let t0 := t.drop 8
    let t1 := t0.drop (countLeading isSpaceC t0)
    match (if startsWithCI (sl "no") t1 then headerTail (t1.drop 2) else none) with
    | some rest => rest
    | none =>
      match headerTail t1 with
      | some rest => rest
      | none => t
  else t

/-- Truncate at the first `re.search(r'^[A-F][\.\)]', text, re.M)` match. -/
def truncAtChoice (atLS : Bool) : Str → Str
  | [] => []
  | c :: r =>
    if atLS && decide ('A' ≤ c) && decide (c ≤ 'F') &&
        ((r.head?.map (fun p => p == '.' || p == ')')).getD false) then []
    else c :: truncAtChoice (c == '\n') r

/-- `PDFParser._extract_question_text` (parser.py lines 461-475). -/
def extract_question_text (block : Str) : Str :=
  let t1 := removeQLines (block.length + 1) true block
  let t2 := stripQuestionHeader t1
  let t3 := truncAtChoice true t2
  fwsPP t3

/-! ## Choice extraction (`PDFParser._extract_choices`) -/

def isDotParen (c : Char) : Bool := c == '.' || c == ')'

/-- `re.finditer(rf'(?:^|\s|[.!?])({label}[\.\)])', s)`: positions
`(match.start(), match.end())` of each non-overlapping match; `i` is the
index of the head of the current suffix. -/
def findMarkers (label : Char) : Nat → Nat → Str → List (Nat × Nat)
  | 0, _, _ => []
  | _, _, [] => []
  | fuel + 1, i, c :: r =>
    if i == 0 && c == label && ((r.head?.map isDotParen).getD false) then
      (0, 2) :: findMarkers label fuel 2 (r.drop 1)
    else if isSpaceC c || c == '.' || c == '!' || c == '?' then
      match r with
      | l :: p :: rest =>
        if l == label && isDotParen p then
          (i, i + 3) :: findMarkers label fuel (i + 3) rest
        else findMarkers label fuel (i + 1) r
      | _ => findMarkers label fuel (i + 1) r
    else findMarkers label fuel (i + 1) r

/-- All labels' marker positions as `(start, label, text_start)`. -/
def allMarkers (s : Str) : List (Nat × Char × Nat) :=
  (['A', 'B', 'C', 'D', 'E', 'F'].map
    (fun l => (findMarkers l (s.length + 1) 0 s).map (fun p => (p.1, l, p.2)))).flatten

/-- Lexicographic order on `(start, label)` used by Python's tuple `sort()`
(identical starts cannot occur, the label tie-break is never exercised). -/
def leMarker (x y : Nat × Char × Nat) : Bool :=
  x.1 < y.1 || (x.1 == y.1 && x.2.1 ≤ y.2.1)

def insertMarker (x : Nat × Char × Nat) : List (Nat × Char × Nat) → List (Nat × Char × Nat)
  | [] => [x]
  | y :: r => if leMarker x y then x :: y :: r else y :: insertMarker x r

def sortMarkers (l : List (Nat × Char × Nat)) : List (Nat × Char × Nat) :=
  l.foldr insertMarker []

/-- One alternative of
`\b(?:Answer:|Explanation:|Reference:|Correct\s+Answer|Q\d+)` (ci) starting
here? -/
def endMarkerAt (s : Str) : Bool :=
  startsWithCI (sl "answer:") s || startsWithCI (sl "explanation:") s ||
  startsWithCI (sl "reference:") s ||
  (startsWithCI (sl "correct") s &&
    (let t := s.drop 7
     let w := countLeading isSpaceC t
     decide (0 < w) && startsWithCI (sl "answer") (t.drop w))) ||
  (match s with
   | c :: r => (c == 'Q' || c == 'q') && decide (0 < countLeading isDigitC r)
   | [] => false)

/-- Index of the first `\b`-anchored end-marker match (all alternatives start
with a word character, so `\b` is "previous character is not a word
character"). -/
def findEndMarker (i : Nat) (prevWord : Bool) : Str → Option Nat
  | [] => none
  | c :: r =>
    if !prevWord && endMarkerAt (c :: r) then some i
    else findEndMarker (i + 1) (isWordC c) r

/-- The per-marker extraction loop of `_extract_choices`. -/
def extractChoicesGo (nb : Str) : List (Nat × Char × Nat) → List Choice
  | [] => []
  | (_, label, tstart) :: rest =>
    let endPos :=
      match rest with
      | (s2, _, _) :: _ => s2
      | [] =>
        match findEndMarker 0 false (nb.drop tstart) with
        | some j => tstart + j
        | none => nb.length
    let ct := strip (slice nb tstart endPos)
    let ct := fix_word_spacing ct
    let ct := strip (normWS ct)
    if ct.isEmpty then extractChoicesGo nb rest
    else { label := label, text := ct } :: extractChoicesGo nb rest

/-- `PDFParser._extract_choices` (parser.py lines 477-528). -/
def extract_choices (block : Str) : List Choice :=
  let nb := normWS (block.map (fun c => if c == '\n' then ' ' else c))
  extractChoicesGo nb (sortMarkers (allMarkers nb))

/-! ## Question type (`PDFParser._determine_type`) -/

def multiIndicators : List Str :=
  [sl "select all", sl "choose all", sl "select two", sl "select three",
   sl "which two", sl "which three", sl "(choose two)", sl "(choose three)",
   sl "select the correct answers", sl "correct answers are"]

/-- `PDFParser._determine_type` (parser.py lines 530-549). -/
def determine_type (question_text : Str) (choices : List Choice) : Str :=
  let tl := lowerS question_text
  if multiIndicators.any (fun ind => containsSub ind tl) then sl "multi"
  else
    match choices with
    | [c1, c2] =>
      let t1 := lowerS c1.text
      let t2 := lowerS c2.text
      if (t1 = sl "true" ∧ t2 = sl "false") ∨ (t1 = sl "false" ∧ t2 = sl "true") ∨
         (t1 = sl "yes" ∧ t2 = sl "no") ∨ (t1 = sl "no" ∧ t2 = sl "yes") then
        sl "truefalse"
      else sl "single"
    | _ => sl "single"

/-! ## Single-question parsing (`PDFParser._parse_single_question`) -/

/-- `re.sub(rf'^{w}\s*', '', t, flags=re.IGNORECASE)` for a literal `w`
(anchored, no MULTILINE: at most one removal, at the start). -/
def subAnchorCI (w t : Str) : Str :=
  if startsWithCI w t then
    let t1 := t.drop w.length
    t1.drop (countLeading isSpaceC t1)
  else t

/-- `re.sub(rf'{w}[:\s]*', '', s, flags=re.IGNORECASE)` for a literal `w`. -/
def subPhrasePunct (w : Str) : Nat → Str → Str
  | 0, s => s
  | _, [] => []
  | fuel + 1, c :: r =>
    if startsWithCI w (c :: r) then
      let t := (c :: r).drop w.length
      subPhrasePunct w fuel (t.drop (countLeading isColonSpace t))
    else c :: subPhrasePunct w fuel r

/-- The `.*?POST\.?` tail (no DOTALL: `.` stops at a newline): remainder
after the lazily-nearest `POST` (ci) plus an optional dot, or `none`. -/
def findSpanTail (post : Str) : Nat → Str → Option Str
  | 0, _ => none
  | fuel + 1, s =>
    if startsWithCI post s then
      let t := s.drop post.length
      some (if (t.head?.map (· == '.')).getD false then t.drop 1 else t)
    else
      match s with
      | [] => none
      | '\n' :: _ => none
      | _ :: r => findSpanTail post fuel r

/-- `re.sub(rf'{pre}.*?{post}\.?', '', s, flags=re.IGNORECASE)`. -/
def subLazySpan (pre post : Str) : Nat → Str → Str
  | 0, s => s
  | _, [] => []
  | fuel + 1, c :: r =>
    if startsWithCI pre (c :: r) then
      match findSpanTail post ((c :: r).length + 1) ((c :: r).drop pre.length) with
      | some rest => subLazySpan pre post fuel rest
      | none => c :: subLazySpan pre post fuel r
    else c :: subLazySpan pre post fuel r

/-- `re.sub(r'Answer:\s*Explanation:.*$', '', t, flags=re.I | re.DOTALL)`:
truncate at the leftmost `Answer:` directly followed (modulo whitespace) by
`Explanation:`. -/
def subAnswerExplanation : Str → Str
  | [] => []
  | c :: r =>
    if startsWithCI (sl "answer:") (c :: r) &&
        (let t := (c :: r).drop 7
         startsWithCI (sl "explanation:") (t.drop (countLeading isSpaceC t))) then []
    else c :: subAnswerExplanation r

/-- `re.sub(r'\?\s*Answer:.*$', '?', t, flags=re.I | re.DOTALL)`. -/
def subQAnswer : Str → Str
  | [] => []
  | c :: r =>
    if c == '?' && startsWithCI (sl "answer:") (r.drop (countLeading isSpaceC r)) then ['?']
    else c :: subQAnswer r

/-- Lookahead `(?=Q\d+|$)` (case-sensitive, `$` also before a final
newline). -/
def strictLook : Str → Bool
  | [] => true
  | c :: r => (c = 'Q' ∧ 0 < countLeading isDigitC r) ∨ (c = '\n' ∧ r = [])

/-- The `[^Q]+?` lazy tail of the strict explanation pattern: take at least
one non-`Q` character, then extend until `strictLook` holds; a `Q` without
the lookahead kills the whole match. -/
def lazyNonQ : Nat → Str → Str → Option Str
  | 0, _, _ => none
  | fuel + 1, acc, rest =>
    match rest with
    | [] => none
    | x :: r =>
      if x = 'Q' then none
      else if strictLook r then some (acc ++ [x])
      else lazyNonQ fuel (acc ++ [x]) r

/-- `re.search(r'Explanation[:\s]+([A-Z][^Q]+?)(?=Q\d+|$)', block, re.DOTALL)`
(case-sensitive), attempted at the start of `s`. -/
def matchStrictExplAt (s : Str) : Option Str :=
  if startsWith (sl "Explanation") s then
    let r1 := s.drop 11
    let k := countLeading isColonSpace r1
    if k = 0 then none
    else
      match r1.drop k with
      | [] => none
      | c :: rest =>
        if 'A' ≤ c ∧ c ≤ 'Z' then lazyNonQ (rest.length + 1) [c] rest else none
  else none

/-- `re.search(r'Reference[:\s]*(https?://[^\s]+)', block, re.IGNORECASE)`,
attempted at the start of `s`; returns the captured URL. -/
def matchRefAt (s : Str) : Option Str :=
  if startsWithCI (sl "reference") s then
    let r1 := s.drop 9
    let r2 := r1.drop (countLeading isColonSpace r1)
    if startsWithCI (sl "http") r2 then
      let r3 := r2.drop 4
      let r4 := if startsWithCI (sl "s") r3 then r3.drop 1 else r3
      if startsWith (sl "://") r4 then
        let r5 := r4.drop 3
        let m := countLeading (fun c => !isSpaceC c) r5
        if m = 0 then none
        else some (r2.take (r2.length - r5.length + m))
      else none
    else none
  else none

/-- Python truthiness of the optional explanation string. -/
def optTruthy (o : Option Str) : Bool :=
  match o with
  | some e => !e.isEmpty
  | none => false

/-- `int(match.group(1))` of `re.match(r'^Q(\d+)', block)`, else 0. -/
def parseQNum (block : Str) : Nat :=
  match block with
  | 'Q' :: r =>
    let d := countLeading isDigitC r
    if 0 < d then (r.take d).foldl (fun a c => a * 10 + (c.toNat - 48)) 0 else 0
  | _ => 0

def dragdropFallback : Str :=
  sl "📋 DRAG & DROP: This question requires matching or ordering items. Focus on understanding the relationships between Azure components mentioned in the scenario."

def hotspotFallback : Str :=
  sl "🎯 HOTSPOT: This question requires selecting areas on a diagram. Focus on understanding the Azure portal interface and configuration options mentioned."

/-- The study branch of `_parse_single_question` (parser.py lines 399-445):
question-text cleanup, the strict explanation search, the reference-URL
fallback and the kind-specific placeholder. -/
def parseStudyQuestion (block question_text : Str) (explanation : Option Str)
    (question_number : Nat) : ParsedQuestion :=
  let bu := upperS block
  let isDrag := containsSub (sl "DRAGDROP") bu || containsSub (sl "DRAG DROP") bu
  let qt := subAnchorCI (sl "dragdrop") question_text
  let qt := subAnchorCI (sl "hotspot") qt
  let qt := subPhrasePunct (sl "select and place") (qt.length + 1) qt
  let qt := subPhrasePunct (sl "hot area") (qt.length + 1) qt
  let qt := subLazySpan (sl "answer by dragging") (sl "answer area") (qt.length + 1) qt
  let qt := subLazySpan (sl "to answer,") (sl "answer area") (qt.length + 1) qt
  let qt := subLazySpan (sl "note:") (sl "point") (qt.length + 1) qt
  let qt := subAnswerExplanation qt
  let qt := subQAnswer qt
  let qt := fix_word_spacing qt
  let e1 :=
    match reSearch matchStrictExplAt block with
    | some g =>
      let e := fix_word_spacing (strip g)
      if e.length < 50 || containsSub (lowerS (qt.take 30)) (lowerS (e.take 100)) then
        none
      else some e
    | none => explanation
  let e2 :=
    if optTruthy e1 then e1
    else
      match reSearch matchRefAt block with
      | some url => some (sl "Reference: " ++ url)
      | none => e1
  let e3 :=
    if optTruthy e2 then e2
    else some (if isDrag then dragdropFallback else hotspotFallback)
  { text := qt, choices := [], correct_answers := [],
    explanation := e3, question_type := sl "study",
    source_page := question_number }

/-- The standard multiple-choice branch of `_parse_single_question`
(parser.py lines 447-459). -/
def parseGradedQuestion (block question_text : Str) (explanation : Option Str)
    (question_number : Nat) : ParsedQuestion :=
  let choices := extract_choices block
  { text := question_text, choices := choices,
    correct_answers := extract_answers block, explanation := explanation,
    question_type := determine_type question_text choices,
    source_page := question_number }

/-- `PDFParser._parse_single_question` (parser.py lines 378-459). -/
def parse_single_question (block : Str) : Option ParsedQuestion :=
  let question_number := parseQNum block
  let bu := upperS block
  let is_study := containsSub (sl "DRAGDROP") bu || containsSub (sl "DRAG DROP") bu ||
    containsSub (sl "HOTSPOT") bu
  let question_text := extract_question_text block
  if question_text.isEmpty then none
  else
    let explanation := extract_explanation block
    if is_study then
      some (parseStudyQuestion block question_text explanation question_number)
    else
      some (parseGradedQuestion block question_text explanation question_number)

/-- `PDFParser._parse_questions` (parser.py lines 346-361): parse each block
and keep questions with text or choices. -/
def parse_questions (full_text : Str) : List ParsedQuestion :=
  (split_into_blocks full_text).filterMap (fun b =>
    match parse_single_question b with
    | some q => if !q.text.isEmpty || !q.choices.isEmpty then some q else none
    | none => none)

/-! ## Series detection (`PDFParser._detect_question_series`) -/

/-- Apostrophe character (kept out of string literals). -/
def apos : Char := Char.ofNat 39

/-- `re.search(r"note:\s*PHRASE", text_lower, re.IGNORECASE)`. -/
def searchNoteWS (post : Str) : Str → Bool
  | [] => false
  | c :: r =>
    (startsWithCI (sl "note:") (c :: r) &&
      (let t := (c :: r).drop 5
       startsWithCI post (t.drop (countLeading isSpaceC t)))) ||
    searchNoteWS post r

/-- The `series_patterns` checks of `_detect_question_series` against the
lower-cased question text. -/
def hasSeriesMarker (tl : Str) : Bool :=
  searchNoteWS (sl "this question is part of a series") tl ||
  searchNoteWS (sl "the question is included in a number of questions") tl ||
  containsSub (sl "part of a series of questions") tl ||
  containsSub (sl "identical set-up") tl ||
  containsSub (sl "depicts the identical") tl ||
  containsSub (sl "same scenario") tl ||
  containsSub (sl "questions that share the same") tl ||
  containsSub (sl "questions that present the same scenario") tl

/-- One of the lookahead phrases of the `^Note:` preamble pattern starts
here? -/
def scenarioPhraseAt (s : Str) : Bool :=
  startsWithCI (sl "You have") s || startsWithCI (sl "You are") s ||
  startsWithCI (sl "Your company") s || startsWithCI (sl "A company") s

/-- Suffix at the leftmost position where a lookahead phrase starts. -/
def findScenarioPhrase : Str → Option Str
  | [] => none
  | c :: r => if scenarioPhraseAt (c :: r) then some (c :: r) else findScenarioPhrase r

/-- `re.sub(r'^Note:.*?(?=You have|You are|Your company|A company)', '', text,
flags=re.I | re.DOTALL)` — anchored, at most one removal. -/
def subNotePreamble (text : Str) : Str :=
  if startsWithCI (sl "note:") text then
    match findScenarioPhrase (text.drop 5) with
    | some rest => rest
    | none => text
  else text

/-- `.*?POST\.?\s*` tail with DOTALL. -/
def findSpanTailDotall (post : Str) : Nat → Str → Option Str
  | 0, _ => none
  | fuel + 1, s =>
    if startsWithCI post s then
      let t := s.drop post.length
      let t := if (t.head?.map (· == '.')).getD false then t.drop 1 else t
      some (t.drop (countLeading isSpaceC t))
    else
      match s with
      | [] => none
      | _ :: r => findSpanTailDotall post fuel r

/-- `re.sub(rf'{pre}.*?{post}\.?\s*', '', s, flags=re.I | re.DOTALL)`. -/
def subLazySpanDotall (pre post : Str) : Nat → Str → Str
  | 0, s => s
  | _, [] => []
  | fuel + 1, c :: r =>
    if startsWithCI pre (c :: r) then
      match findSpanTailDotall post ((c :: r).length + 1) ((c :: r).drop pre.length) with
      | some rest => subLazySpanDotall pre post fuel rest
      | none => c :: subLazySpanDotall pre post fuel r
    else c :: subLazySpanDotall pre post fuel r

/-- Truncate at `re.search(r'Solution:|Does that meet|What should you', text,
re.IGNORECASE)`. -/
def truncAtSolution : Str → Str
  | [] => []
  | c :: r =>
    if startsWithCI (sl "solution:") (c :: r) ||
       startsWithCI (sl "does that meet") (c :: r) ||
       startsWithCI (sl "what should you") (c :: r) then []
    else c :: truncAtSolution r

/-- `PDFParser._extract_core_scenario` (parser.py lines 875-913). -/
def extract_core_scenario (text : Str) : Str :=
  let t1 := subNotePreamble text
  let t2 := subLazySpanDotall (sl "after you answer a question in this section")
    (sl "review screen") (t1.length + 1) t1
  let t3 := truncAtSolution t2
  let t4 := subLitCI (sl "Your company" ++ [apos] ++ sl "s Azure solution")
    (sl "Your company") (t3.length + 1) t3
  let t5 := subLitCI (sl "Your company" ++ [apos] ++ sl "s")
    (sl "Your company") (t4.length + 1) t4
  let t6 := subLitCI (sl "makes use of") (sl "uses") (t5.length + 1) t5
  (strip (normWS t6)).take 200

/-- `hashlib.sha256(core_scenario.encode()).hexdigest()[:12]`. -/
def scenarioHash (core : Str) : Str := (sha256hex (utf8Encode core)).take 12

/-- First pass: explicit markers register fingerprints and join series. -/
def seriesPass1 (reg : List Str) : List ParsedQuestion → List Str × List ParsedQuestion
  | [] => (reg, [])
  | q :: qs =>
    if hasSeriesMarker (lowerS q.text) then
      let h := scenarioHash (extract_core_scenario q.text)
      let reg1 := if reg.contains h then reg else reg ++ [h]
      let (regF, rest) := seriesPass1 reg1 qs
      (regF, { q with series_id := some h } :: rest)
    else
      let (regF, rest) := seriesPass1 reg qs
      (regF, q :: rest)

/-- Second pass: unassigned questions join a registered fingerprint. -/
def seriesPass2 (reg : List Str) (qs : List ParsedQuestion) : List ParsedQuestion :=
  qs.map (fun q =>
    match q.series_id with
    | some _ => q
    | none =>
      let h := scenarioHash (extract_core_scenario q.text)
      if reg.contains h then { q with series_id := some h } else q)

/-- `PDFParser._detect_question_series` (parser.py lines 819-873). -/
def detect_question_series (qs : List ParsedQuestion) : List ParsedQuestion :=
  let (reg, qs1) := seriesPass1 [] qs
  seriesPass2 reg qs1

/-! ## Parse report and the per-document loop (`PDFParser.parse_pdf`) -/

/-- `ParseReport` (parser.py lines 47-68). -/
structure ParseReport where
  filename : Str := []
  total_questions : Nat := 0
  valid_questions : Nat := 0
  missing_answers : Nat := 0
  broken_choices : Nat := 0
  duplicates : Nat := 0
  page_issues : List (Nat × List Str) := []
  questions : List ParsedQuestion := []
deriving Repr, DecidableEq

/-- The per-choice warnings appended by `parse_pdf` (lines 160-167). -/
def truncEndings : List Str :=
  [sl "?", sl "and then", sl "and", sl "the", sl "to", sl "as the", sl "from"]

def choiceWarnings (choices : List Choice) : List Str :=
  choices.flatMap (fun choice =>
    if choice.text.length < 10 then
      [sl "Choice " ++ [choice.label] ++ sl " is suspiciously short: " ++
        [apos] ++ choice.text ++ [apos]]
    else if truncEndings.any (fun suf => endsWith suf choice.text) then
      [sl "Choice " ++ [choice.label] ++ sl " may be truncated: ends with " ++
        [apos] ++ choice.text.drop (choice.text.length - 20) ++ [apos]]
    else [])

/-- The body of `parse_pdf`'s classification/validation loop for one
question (parser.py lines 144-178); the second state component is the
`seen_ids` set.  `stable_id` and `is_valid` read only fields this loop never
modifies (text, choices, correct_answers, question_type, explanation), so
they are computed once on the incoming record. -/
def processQuestion (C : Classifier) (st : ParseReport × List Str)
    (q0 : ParsedQuestion) : ParseReport × List Str :=
  let report := st.1
  let seen := st.2
  let report := { report with total_questions := report.total_questions + 1 }
  let sid := stable_id q0
  let dup := seen.contains sid
  let q := { q0 with domain_id := some (classify C q0.text) }
  let rq :=
    if q0.question_type ≠ sl "study" then
      let rq :=
        if q0.correct_answers.isEmpty then
          ({ report with missing_answers := report.missing_answers + 1 },
           { q with issues := q.issues ++ [sl "Missing correct answer"] })
        else (report, q)
      let rq2 :=
        if q0.choices.length < 2 then
          ({ rq.1 with broken_choices := rq.1.broken_choices + 1 },
           { rq.2 with issues := rq.2.issues ++ [sl "Less than 2 choices"] })
        else rq
      (rq2.1, { rq2.2 with issues := rq2.2.issues ++ choiceWarnings q0.choices })
    else (report, q)
  let report := if dup then { rq.1 with duplicates := rq.1.duplicates + 1 } else rq.1
  let q := if dup then { rq.2 with issues := rq.2.issues ++ [sl "Duplicate question"] } else rq.2
  let seen := if dup then seen else sid :: seen
  let report :=
    if is_valid q0 then { report with valid_questions := report.valid_questions + 1 }
    else report
  ({ report with questions := report.questions ++ [q] }, seen)

/-- The whole loop, started from a fresh `seen_ids` set. -/
def runStats (C : Classifier) (report : ParseReport) (qs : List ParsedQuestion) : ParseReport :=
  (qs.foldl (processQuestion C) (report, [])).1

/-- 1-based `sequence_number` assignment (`for idx, q in enumerate(questions, 1)`). -/
def assignSeqGo (i : Nat) : List ParsedQuestion → List ParsedQuestion
  | [] => []
  | q :: r => { q with sequence_number := i } :: assignSeqGo (i + 1) r

def assignSeq (qs : List ParsedQuestion) : List ParsedQuestion := assignSeqGo 1 qs

/-- `re.sub(r'\s+', ' ', s)`: each maximal whitespace run becomes one
space; unlike `normWS`, leading and trailing runs are kept (as a space). -/
def wsToSpaceGo (prevWS : Bool) : Str → Str
  | [] => []
  | c :: r =>
    if isSpaceC c then (if prevWS then [] else [' ']) ++ wsToSpaceGo true r
    else c :: wsToSpaceGo false r

def wsToSpace (s : Str) : Str := wsToSpaceGo false s

/-- Decimal rendering of a `Nat` (Python `f"{n}"` for the non-negative ints
interpolated into exhibit filenames). -/
def natToStrGo : Nat → Nat → Str
  | 0, _ => []
  | fuel + 1, n =>
    if n < 10 then [Char.ofNat (48 + n)]
    else natToStrGo fuel (n / 10) ++ [Char.ofNat (48 + n % 10)]

def natToStr (n : Nat) : Str := natToStrGo (n + 1) n

/-- One scan of `text_by_page` (dict iteration = insertion order): the first
page whose whitespace-normalized lowercase text contains `needle`. -/
def findPageWith (needle : Str) : List (Nat × Str) → Option Nat
  | [] => none
  | (n, t) :: r =>
    if containsSub needle (lowerS (wsToSpace t)) then some n
    else findPageWith needle r

/-- `PDFParser._find_pdf_page_for_question` (parser.py lines 702-723):
substring search for the first 200 normalized characters of the question
text, then a 100-character fallback, else 0. -/
def find_pdf_page_for_question (question_text : Str)
    (text_by_page : List (Nat × Str)) : Nat :=
  if question_text.isEmpty then 0
  else
    match findPageWith (lowerS (wsToSpace (question_text.take 200))) text_by_page with
    | some n => n
    | none =>
      match findPageWith (lowerS (wsToSpace (question_text.take 100))) text_by_page with
      | some n => n
      | none => 0

/-- What `doc.extract_image` returns for one entry of `page.get_images`:
the byte length of `base_image["image"]`, its `ext`, and the `width`/
`height` fields (0 when absent, as in `base_image.get(..., 0)`). -/
structure PdfImage where
  size : Nat
  ext : Str
  width : Nat
  height : Nat
deriving Repr, DecidableEq

def exhibit_keywords : List Str :=
  [sl "following exhibit", sl "shown in the following", sl "as shown in",
   sl "following diagram", sl "following image", sl "exhibit", sl "shown below"]

def table_keywords : List Str :=
  [sl "following users", sl "following resources", sl "following table",
   sl "following virtual machines", sl "following storage accounts",
   sl "following subscriptions", sl "contains the following",
   sl "following information", sl "following configuration",
   sl "following azure", sl "following settings"]

/-- `f"/static/exhibits/q{q.source_page}_{q.stable_id[:8]}_img{idx}.{ext}"`
(parser.py lines 800-808). -/
def imagePath (q : ParsedQuestion) (idx : Nat) (ext : Str) : Str :=
  sl "/static/exhibits/q" ++ natToStr q.source_page ++ sl "_" ++
    (stable_id q).take 8 ++ sl "_img" ++ natToStr idx ++ sl "." ++ ext

/-- The inner `for img_index, img in enumerate(image_list)` of
`_extract_and_link_images` (parser.py lines 776-808): skip images under
5000 bytes, keep the first one that is table-like or exhibit-sized, and
return its serving path.  The float test `width / max(height, 1) > 1.5` is
modelled by the exact rational comparison `3 * max height 1 < 2 * width`. -/
def pickImage (q : ParsedQuestion) (idx : Nat) : List PdfImage → Option Str
  | [] => none
  | img :: rest =>
    if img.size < 5000 then pickImage q (idx + 1) rest
    else
      let is_table_like := decide (300 < img.width) && decide (50 < img.height) &&
        decide (3 * max img.height 1 < 2 * img.width)
      let is_exhibit := decide (10000 ≤ img.size)
      if is_table_like || is_exhibit then some (imagePath q idx img.ext)
      else pickImage q (idx + 1) rest

/-- The per-question loop of `_extract_and_link_images` (parser.py lines
751-811).  `doc` holds, per 0-indexed PDF page, the extracted data of
`page.get_images(full=True)`.  A found page number out of range raises
`IndexError` at `doc[pdf_page_num - 1]`, which the surrounding `except`
catches: the loop stops and the remaining questions stay untouched (the
previous-page read `doc[pdf_page_num - 2]` is guarded by `pdf_page_num > 1`
and in range whenever `pdf_page_num - 1` is).  Writing the image file is an
external filesystem effect with no bearing on the question list. -/
def linkImagesGo (doc : List (List PdfImage)) (text_by_page : List (Nat × Str)) :
    List ParsedQuestion → List ParsedQuestion
  | [] => []
  | q :: rest =>
    let tl := lowerS q.text
    let has_exhibit := exhibit_keywords.any (fun k => containsSub k tl)
    let has_table := table_keywords.any (fun k => containsSub k tl)
    if !has_exhibit && !has_table then q :: linkImagesGo doc text_by_page rest
    else
      let p := find_pdf_page_for_question q.text text_by_page
      if p = 0 then q :: linkImagesGo doc text_by_page rest
      else if doc.length ≤ p - 1 then q :: rest
      else
        let image_list := doc.getD (p - 1) []
        let image_list := if image_list.isEmpty && 1 < p then doc.getD (p - 2) [] else image_list
        match pickImage q 0 image_list with
        | some path => { q with exhibit_image := some path } :: linkImagesGo doc text_by_page rest
        | none => q :: linkImagesGo doc text_by_page rest

/-- `PDFParser._extract_and_link_images` (parser.py lines 726-817).
`doc = none` models `import fitz` failing or `fitz.open` raising — both
leave every question unchanged. -/
def linkImages (doc : Option (List (List PdfImage))) (text_by_page : List (Nat × Str))
    (qs : List ParsedQuestion) : List ParsedQuestion :=
  match doc with
  | none => qs
  | some d => linkImagesGo d text_by_page qs

/-- `PDFParser.parse_pdf` (parser.py lines 115-180).  The text-extraction
step (an external backend that may throw) enters as `extraction` and doubles
as `text_by_page`; the `except` around it yields the early-return report;
`doc` is the image data `_extract_and_link_images` reads via PyMuPDF. -/
def parse_pdf (C : Classifier) (doc : Option (List (List PdfImage)))
    (filename : Str) (extraction : Except Str (List (Nat × Str))) : ParseReport :=
  match extraction with
  | .error e =>
    { filename := filename, page_issues := [(0, [sl "Failed to read PDF: " ++ e])] }
  | .ok pages =>
    let full_text := joinSep ['\n'] (pages.map (·.2))
    let questions := parse_questions full_text
    let questions := linkImages doc pages questions
    let questions := detect_question_series questions
    let questions := assignSeq questions
    runStats C { filename := filename } questions

example : sl "abc" = ['a', 'b', 'c'] := rfl
example : lowerS (sl "AbC") = sl "abc" := by decide
example : strip (sl "  hi ") = sl "hi" := by decide
example : normWS (sl "a  b\n\tc") = sl "a b c" := by decide
example : containsSub (sl "bc") (sl "abcd") = true := by decide
example : countLeading isSpaceC (sl "  x") = 2 := by decide
example : endsWith (sl "the") (sl "of the") = true := by decide



/-! # Theorems -/

/-! ## C9: extraction failure yields a normal, flagged, empty report -/

/-- C9: for every document whose text-extraction step raises, `parse_pdf`
returns normally (it is a total function into `ParseReport`) with the
extraction failure recorded under page 0 of the page-issue map, an empty
question list, and every counter equal to zero. -/
theorem C9_extraction_failure (C : Classifier) (doc : Option (List (List PdfImage)))
    (name err : Str) :
    parse_pdf C doc name (.error err) =
      { filename := name, total_questions := 0, valid_questions := 0,
        missing_answers := 0, broken_choices := 0, duplicates := 0,
        page_issues := [(0, [sl "Failed to read PDF: " ++ err])],
        questions := [] } := rfl

/-! ## C1: `stable_id` is a pure 16-hex-character content hash -/

theorem length_flatMap_const {α β : Type} (l : List α) (f : α → List β) (k : Nat)
    (h : ∀ x, (f x).length = k) : (l.flatMap f).length = k * l.length := by
  induction l with
  | nil => simp
  | cons x xs ih => simp [List.flatMap_cons, ih, h x, Nat.mul_succ, Nat.add_comm]

theorem hexC_mem (n : Nat) : hexC n ∈ hexDigits := by
  unfold hexC
  have h : n % 16 < 16 := Nat.mod_lt _ (by norm_num)
  generalize n % 16 = k at h
  interval_cases k <;> decide

theorem sha256hex_length (msg : List Nat) : (sha256hex msg).length = 64 := by
  unfold sha256hex
  rw [length_flatMap_const _ byteHex 2 (fun _ => rfl),
    length_flatMap_const _ bytesOfWord 4 (fun _ => rfl)]
  rfl

theorem sha256hex_mem_hex (msg : List Nat) : ∀ c ∈ sha256hex msg, c ∈ hexDigits := by
  intro c hc
  unfold sha256hex at hc
  rw [List.mem_flatMap] at hc
  obtain ⟨b, _, hb⟩ := hc
  rcases List.mem_pair.mp hb with h1 | h1 <;> rw [h1] <;> exact hexC_mem _

/-- C1: `stable_id` is a pure function of the question text and the choice
texts only — two `ParsedQuestion`s agreeing on those fields get the same id
(hence recomputation over runs is deterministic) — and the id is a
16-hex-character string. -/
theorem C1_stable_id (q1 q2 : ParsedQuestion) (htext : q1.text = q2.text)
    (hchoices : q1.choices.map (fun c => c.text) = q2.choices.map (fun c => c.text)) :
    stable_id q1 = stable_id q2 ∧ (stable_id q1).length = 16 ∧
      ∀ c ∈ stable_id q1, c ∈ hexDigits := by
  refine ⟨?_, ?_, ?_⟩
  · unfold stable_id qContent
    rw [htext, hchoices]
  · unfold stable_id
    rw [List.length_take, sha256hex_length]
    rfl
  · intro c hc
    exact sha256hex_mem_hex _ c (List.mem_of_mem_take hc)

def C1w1 : ParsedQuestion :=
  { text := sl "Which?",
    choices := [{ label := 'A', text := sl "one" }, { label := 'B', text := sl "two" }],
    correct_answers := ['A'] }

/-- Same text and choice texts as `C1w1`, every other field different. -/
def C1w2 : ParsedQuestion :=
  { text := sl "Which?",
    choices := [{ label := 'X', text := sl "one" }, { label := 'Y', text := sl "two" }],
    correct_answers := ['B'], explanation := some (sl "why"),
    question_type := sl "multi", domain_id := some (sl "storage"),
    source_page := 9, sequence_number := 3, issues := [sl "Duplicate question"] }

theorem C1_stable_id_witness :
    stable_id C1w1 = stable_id C1w2 ∧ (stable_id C1w1).length = 16 :=
  ⟨(C1_stable_id C1w1 C1w2 rfl rfl).1, (C1_stable_id C1w1 C1w2 rfl rfl).2.1⟩

/-! ## C3: ordered answer-pattern fallback -/

theorem char_le_iff_toNat (a b : Char) : a ≤ b ↔ a.toNat ≤ b.toNat := Iff.rfl

theorem toNat_ofNat_lt (k : Nat) (h : k < 55296) : (Char.ofNat k).toNat = k := by
  unfold Char.ofNat
  split
  · rfl
  · rename_i hv
    exact absurd (Or.inl h) hv

theorem upperC_AF (c : Char) (h : isAF c = true) :
    'A' ≤ upperC c ∧ upperC c ≤ 'F' := by
  unfold isAF at h
  rcases of_decide_eq_true h with ⟨h1, h2⟩ | ⟨h1, h2⟩
  · have hn1 : 65 ≤ c.toNat := h1
    have hn2 : c.toNat ≤ 70 := h2
    have hcond : ¬('a' ≤ c ∧ c ≤ 'z') := by
      rintro ⟨ha, -⟩
      have : 97 ≤ c.toNat := ha
      omega
    unfold upperC
    rw [if_neg (by simpa using hcond)]
    exact ⟨h1, h2⟩
  · have hn1 : 97 ≤ c.toNat := h1
    have hn2 : c.toNat ≤ 102 := h2
    have hcond : 'a' ≤ c ∧ c ≤ 'z' := by
      refine ⟨h1, ?_⟩
      rw [char_le_iff_toNat]
      have : ('z').toNat = 122 := rfl
      omega
    unfold upperC
    rw [if_pos (by simpa using hcond)]
    have hk : (Char.ofNat (c.toNat - 32)).toNat = c.toNat - 32 :=
      toNat_ofNat_lt _ (by omega)
    constructor
    · rw [char_le_iff_toNat, hk]
      have : ('A').toNat = 65 := rfl
      omega
    · rw [char_le_iff_toNat, hk]
      have : ('F').toNat = 70 := rfl
      omega

theorem lettersAF_ne_nil (c : Char) (r : Str) (h : isAF c = true) :
    lettersAF (c :: r) ≠ [] := by
  obtain ⟨h1, h2⟩ := upperC_AF c h
  simp only [lettersAF, upperS, List.map_cons, List.filter_cons,
    decide_eq_true h1, decide_eq_true h2, Bool.and_self]
  simp

theorem lazyReps1_prefix (fuel : Nat) :
    ∀ acc rest g, lazyReps1 fuel acc rest = some g → acc <+: g := by
  induction fuel with
  | zero => intro acc rest g h; simp [lazyReps1] at h
  | succ n ih =>
    intro acc rest g h
    unfold lazyReps1 at h
    split at h
    rotate_left
    · dsimp only at h
      split at h
      · cases h
      · split at h
        · refine List.IsPrefix.trans ?_ (ih _ _ _ h)
          rw [List.append_assoc]
          exact List.prefix_append _ _
        · cases h
    · cases h
      exact List.prefix_refl _

theorem greedyReps_prefix (fuel : Nat) :
    ∀ acc rest, acc <+: greedyReps fuel acc rest := by
  induction fuel with
  | zero => intro acc rest; exact List.prefix_refl _
  | succ n ih =>
    intro acc rest
    unfold greedyReps
    dsimp only
    split
    · exact List.prefix_refl _
    · split
      · refine List.IsPrefix.trans ?_ (ih _ _)
        rw [List.append_assoc]
        exact List.prefix_append _ _
      · exact List.prefix_refl _

theorem opt_if_some {α : Type} {c : Prop} [Decidable c] {x : Option α} {g : α}
    (h : (if c then x else none) = some g) : x = some g := by
  split at h
  · exact h
  · cases h

theorem opt_if_some_rev {α : Type} {c : Prop} [Decidable c] {x : Option α} {g : α}
    (h : (if c then none else x) = some g) : x = some g := by
  split at h
  · cases h
  · exact h

theorem lazyGroup1_head (u g : Str) (h : lazyGroup1 u = some g) :
    ∃ c r, g = c :: r ∧ isAF c = true := by
  unfold lazyGroup1 at h
  rcases u with _ | ⟨c, r2⟩
  · cases h
  · dsimp only at h
    rcases hAF : isAF c with _ | _
    · rw [if_neg (by simp [hAF])] at h
      cases h
    · rw [if_pos hAF] at h
      obtain ⟨t, ht⟩ := lazyReps1_prefix _ _ _ _ h
      exact ⟨c, t, ht.symm, hAF⟩

theorem greedyGroup_head (u g : Str) (h : greedyGroup u = some g) :
    ∃ c r, g = c :: r ∧ isAF c = true := by
  unfold greedyGroup at h
  rcases u with _ | ⟨c, r5⟩
  · cases h
  · dsimp only at h
    rcases hAF : isAF c with _ | _
    · rw [if_neg (by simp [hAF])] at h
      cases h
    · rw [if_pos hAF] at h
      cases h
      obtain ⟨t, ht⟩ := greedyReps_prefix (r5.length + 1) [c] r5
      exact ⟨c, t, ht.symm, hAF⟩

theorem singleGroup_head (u g : Str) (h : singleGroup u = some g) :
    ∃ c r, g = c :: r ∧ isAF c = true := by
  unfold singleGroup at h
  rcases u with _ | ⟨c, r2⟩
  · cases h
  · dsimp only at h
    rcases hAF : isAF c with _ | _
    · rw [if_neg (by simp [hAF])] at h
      cases h
    · rw [if_pos hAF] at h
      rcases r2 with _ | ⟨d, t⟩
      · cases h
        exact ⟨c, [], rfl, hAF⟩
      · dsimp only at h
        split at h
        · cases h
        · cases h
          exact ⟨c, [], rfl, hAF⟩

theorem matchA1At_head (s g : Str) (h : matchA1At s = some g) :
    ∃ c r, g = c :: r ∧ isAF c = true := by
  unfold matchA1At at h
  exact lazyGroup1_head _ _ (opt_if_some_rev (opt_if_some h))

theorem matchA2At_head (s g : Str) (h : matchA2At s = some g) :
    ∃ c r, g = c :: r ∧ isAF c = true := by
  unfold matchA2At at h
  exact greedyGroup_head _ _
    (opt_if_some_rev (opt_if_some (opt_if_some_rev (opt_if_some h))))

theorem matchA3At_head (s g : Str) (h : matchA3At s = some g) :
    ∃ c r, g = c :: r ∧ isAF c = true := by
  unfold matchA3At at h
  exact singleGroup_head _ _ (opt_if_some_rev (opt_if_some h))

theorem matchA4At_head (s g : Str) (h : matchA4At s = some g) :
    ∃ c r, g = c :: r ∧ isAF c = true := by
  unfold matchA4At at h
  exact greedyGroup_head _ _ (opt_if_some (opt_if_some (opt_if_some h)))

theorem reSearch_ex (f : Str → Option Str) :
    ∀ s g, reSearch f s = some g → ∃ t, f t = some g := by
  intro s
  induction s with
  | nil => intro g h; exact ⟨[], by simpa [reSearch] using h⟩
  | cons c r ih =>
    intro g h
    unfold reSearch at h
    split at h
    · exact ⟨c :: r, by rename_i hs; rw [hs]; exact h⟩
    · exact ih g h

theorem answerSearches_letters (f : Str → Option Str) (hf : f ∈ answerSearches)
    (block g : Str) (h : f block = some g) : lettersAF g ≠ [] := by
  have hg : ∃ c r, g = c :: r ∧ isAF c = true := by
    simp only [answerSearches, List.mem_cons, List.mem_singleton] at hf
    rcases hf with rfl | rfl | rfl | rfl | h0
    · obtain ⟨t, ht⟩ := reSearch_ex _ _ _ h
      exact matchA1At_head _ _ ht
    · obtain ⟨t, ht⟩ := reSearch_ex _ _ _ h
      exact matchA2At_head _ _ ht
    · obtain ⟨t, ht⟩ := reSearch_ex _ _ _ h
      exact matchA3At_head _ _ ht
    · obtain ⟨t, ht⟩ := reSearch_ex _ _ _ h
      exact matchA4At_head _ _ ht
    · cases h0
  obtain ⟨c, r, rfl, hc⟩ := hg
  exact lettersAF_ne_nil c r hc

theorem extractAnswersGo_spec (block : Str) :
    ∀ fs : List (Str → Option Str),
      (∀ f ∈ fs, ∀ g, f block = some g → lettersAF g ≠ []) →
      extractAnswersGo fs block =
        (match firstPatternGroup fs block with
         | some g => lettersAF g
         | none => []) := by
  intro fs
  induction fs with
  | nil => intro _; rfl
  | cons f fs ih =>
    intro h
    unfold extractAnswersGo firstPatternGroup
    rcases hf : f block with _ | g
    · exact ih (fun f hm => h f (List.mem_cons_of_mem _ hm))
    · simp only []
      rw [if_neg]
      simp only [List.isEmpty_eq_true]
      exact h f (List.mem_cons_self f fs) g hf

/-- C3: for every block, `_extract_answers` tries the four answer patterns in
their fixed order and the first pattern whose search matches determines the
result — exactly the letters A-F of its captured group — with `[]` when no
pattern matches (`answersSpec` states that contract; the internal
fall-through on an empty letter list is dead code since a matching group
always yields a letter). -/
theorem C3_answer_pattern_order (block : Str) :
    extract_answers block = answersSpec block := by
  unfold extract_answers answersSpec
  exact extractAnswersGo_spec block answerSearches
    (fun f hf g h => answerSearches_letters f hf block g h)

/-! ## C6: explanation minimum-length boundary (corrected) -/

def C6cex : Str := sl "Explanation:abcdefghijklmnopacde"

/-- C6 counterexample: for this block the whitespace-normalized captured text
has exactly 20 characters — not *shorter* than 20 — yet `_extract_explanation`
discards it (the code keeps only captures *longer* than 20), refuting the
claimed "discarded iff shorter than 20". -/
theorem C6_explanation_counterexample :
    explCaptured C6cex = some (sl "abcdefghijklmnopacde") ∧
    (sl "abcdefghijklmnopacde").length = 20 ∧
    ¬ (sl "abcdefghijklmnopacde").length < 20 ∧
    extract_explanation C6cex = none :=
  ⟨by decide, by decide, by decide, by decide⟩

/-- C6 (amended): explanation extraction returns `none` when the pattern has
no match; on a match the normalized captured text is discarded iff it has at
most 20 characters (not: fewer than 20), and otherwise is returned truncated
to at most 2000 characters. -/
theorem C6_explanation_amended (block : Str) :
    (reSearch matchExplAt block = none → extract_explanation block = none) ∧
    ∀ g, reSearch matchExplAt block = some g →
      ((normWS (strip g)).length ≤ 20 → extract_explanation block = none) ∧
      (20 < (normWS (strip g)).length →
        extract_explanation block = some ((normWS (strip g)).take 2000) ∧
        ((normWS (strip g)).take 2000).length ≤ 2000) := by
  constructor
  · intro h
    unfold extract_explanation
    rw [h]
  · intro g hg
    constructor
    · intro hle
      unfold extract_explanation
      rw [hg]
      dsimp only
      rw [if_neg (by omega)]
    · intro hlt
      refine ⟨?_, ?_⟩
      · unfold extract_explanation
        rw [hg]
        dsimp only
        rw [if_pos hlt]
      · rw [List.length_take]
        omega

def C6wb : Str := sl "Explanation: This is a long enough explanation text."

def C6wg : Str := (reSearch matchExplAt C6wb).getD []

theorem C6_explanation_amended_witness :
    extract_explanation C6wb = some ((normWS (strip C6wg)).take 2000) ∧
    ((normWS (strip C6wg)).take 2000).length ≤ 2000 :=
  ((C6_explanation_amended C6wb).2 C6wg (by decide)).2 (by decide)

/-! ## C7: layered-fallback block segmentation -/

theorem dropWhile_head_not (p : Char → Bool) (l : Str) :
    ∀ c, (l.dropWhile p).head? = some c → p c = false := by
  induction l with
  | nil => intro c h; cases h
  | cons x r ih =>
    intro c h
    rw [List.dropWhile_cons] at h
    split at h
    · exact ih c h
    · cases h
      rename_i hx
      simpa using hx

theorem suffix_getLast? {l u : Str} (hs : u <:+ l) (hne : u ≠ []) :
    u.getLast? = l.getLast? := by
  obtain ⟨t, rfl⟩ := hs
  rw [List.getLast?_append]
  rcases hu : u.getLast? with _ | c
  · exact absurd (List.getLast?_eq_none_iff.mp hu) hne
  · rfl

theorem strip_head_not (s : Str) : ∀ c, (strip s).head? = some c → isSpaceC c = false := by
  intro c h
  unfold strip at h
  rw [List.head?_reverse] at h
  have hu : (s.dropWhile isSpaceC).reverse.dropWhile isSpaceC <:+
      (s.dropWhile isSpaceC).reverse := List.dropWhile_suffix _
  have hne : (s.dropWhile isSpaceC).reverse.dropWhile isSpaceC ≠ [] := by
    intro he
    rw [he] at h
    cases h
  rw [suffix_getLast? hu hne] at h
  rw [List.getLast?_reverse] at h
  exact dropWhile_head_not _ _ c h

theorem strip_getLast_not (s : Str) :
    ∀ c, (strip s).getLast? = some c → isSpaceC c = false := by
  intro c h
  unfold strip at h
  rw [List.getLast?_reverse] at h
  exact dropWhile_head_not _ _ c h

theorem dropWhile_eq_self_of_head (l : Str) (p : Char → Bool)
    (h : ∀ c, l.head? = some c → p c = false) : l.dropWhile p = l := by
  rcases l with _ | ⟨c, r⟩
  · rfl
  · rw [List.dropWhile_cons, if_neg]
    simp [h c rfl]

theorem strip_idem (s : Str) : strip (strip s) = strip s := by
  have h1 : (strip s).dropWhile isSpaceC = strip s :=
    dropWhile_eq_self_of_head _ _ (strip_head_not s)
  have h2 : (strip s).reverse.dropWhile isSpaceC = (strip s).reverse :=
    dropWhile_eq_self_of_head _ _ (fun c hc => by
      rw [List.head?_reverse] at hc
      exact strip_getLast_not s c hc)
  show (((strip s).dropWhile isSpaceC).reverse.dropWhile isSpaceC).reverse = strip s
  rw [h1, h2, List.reverse_reverse]

/-- C7: block segmentation applies the three split patterns in layered
fallback — each later pattern only when the previous split produced at most
one piece — and every returned block is trimmed and non-empty. -/
theorem C7_split_layering (text : Str) :
    split_into_blocks text =
      ((if (reSplit splitM1 text).length < 2 then
          (if (reSplit splitM2 text).length < 2 then reSplit splitM3 text
           else reSplit splitM2 text)
        else reSplit splitM1 text).map strip).filter (fun b => !b.isEmpty) ∧
    ∀ b ∈ split_into_blocks text, b ≠ [] ∧ strip b = b := by
  have heq : split_into_blocks text =
      ((if (reSplit splitM1 text).length < 2 then
          (if (reSplit splitM2 text).length < 2 then reSplit splitM3 text
           else reSplit splitM2 text)
        else reSplit splitM1 text).map strip).filter (fun b => !b.isEmpty) := by
    unfold split_into_blocks
    dsimp only
    by_cases h1 : (reSplit splitM1 text).length < 2 <;>
      by_cases h2 : (reSplit splitM2 text).length < 2 <;>
      simp [h1, h2]
  refine ⟨heq, ?_⟩
  intro b hb
  rw [heq] at hb
  rw [List.mem_filter] at hb
  obtain ⟨hmem, hpred⟩ := hb
  rw [List.mem_map] at hmem
  obtain ⟨a, -, rfl⟩ := hmem
  refine ⟨by simpa using hpred, strip_idem a⟩

def C7wt : Str := sl "Q1\nfoo bar\nQ2\nbaz"

theorem C7_split_layering_witness :
    strip (sl "Q1\nfoo bar") = sl "Q1\nfoo bar" :=
  ((C7_split_layering C7wt).2 (sl "Q1\nfoo bar") (by decide)).2

/-! ## C2: keyword-count classification with first-max tie-break -/

theorem le_foldr_max (l : List Nat) : ∀ x ∈ l, x ≤ l.foldr max 0 := by
  induction l with
  | nil => intro x hx; cases hx
  | cons a r ih =>
    intro x hx
    rcases List.mem_cons.mp hx with rfl | hx
    · exact Nat.le_max_left _ _
    · exact le_trans (ih x hx) (Nat.le_max_right _ _)

theorem foldr_max_le (l : List Nat) (b : Nat) (h : ∀ x ∈ l, x ≤ b) :
    l.foldr max 0 ≤ b := by
  induction l with
  | nil => exact Nat.zero_le _
  | cons a r ih =>
    refine Nat.max_le.mpr ⟨h a (List.mem_cons_self a r), ?_⟩
    exact ih (fun x hx => h x (List.mem_cons_of_mem a hx))

theorem foldl_upsert_nodup (tl : Str) (ds : List Domain) :
    ∀ acc : List (Str × Nat),
      (∀ d ∈ ds, ∀ p ∈ acc, p.1 ≠ d.id) →
      (ds.map (fun d => d.id)).Nodup →
      ds.foldl (fun acc d => upsert acc d.id (domScore tl d)) acc =
        acc ++ ds.map (fun d => (d.id, domScore tl d)) := by
  induction ds with
  | nil => intro acc _ _; simp
  | cons d ds ih =>
    intro acc hdisj hnd
    rw [List.foldl_cons]
    have hany : acc.any (fun p => p.1 = d.id) = false := by
      rw [List.any_eq_false]
      intro p hp
      simpa using hdisj d (List.mem_cons_self d ds) p hp
    have hup : upsert acc d.id (domScore tl d) = acc ++ [(d.id, domScore tl d)] := by
      unfold upsert
      rw [if_neg (by simp [hany])]
    rw [hup, ih]
    · simp
    · intro d2 hd2 p hp
      rcases List.mem_append.mp hp with hp | hp
      · exact hdisj d2 (List.mem_cons_of_mem d hd2) p hp
      · rcases List.mem_singleton.mp hp with rfl
        intro hcontra
        rw [List.map_cons, List.nodup_cons] at hnd
        refine hnd.1 ?_
        have : d.id = d2.id := hcontra
        rw [this]
        exact List.mem_map_of_mem (fun d => d.id) hd2
    · rw [List.map_cons, List.nodup_cons] at hnd
      exact hnd.2

theorem buildScores_nodup (C : Classifier) (tl : Str)
    (h : (C.domains.map (fun d => d.id)).Nodup) :
    buildScores C tl = C.domains.map (fun d => (d.id, domScore tl d)) := by
  unfold buildScores
  rw [foldl_upsert_nodup tl C.domains [] (by intro _ _ p hp; cases hp) h]
  rfl

theorem pyBest_spec (l : List (Str × Nat)) : ∀ p : Str × Nat,
    p.2 ≤ (pyBest p l).2 ∧ (∀ q ∈ l, q.2 ≤ (pyBest p l).2) ∧
    (pyBest p l = p ∨ ∃ i, ∃ hi : i < l.length, pyBest p l = l.get ⟨i, hi⟩ ∧
      p.2 < (pyBest p l).2 ∧
      ∀ j, ∀ hj : j < i, (l.get ⟨j, Nat.lt_trans hj hi⟩).2 < (pyBest p l).2) := by
  induction l with
  | nil =>
    intro p
    refine ⟨le_refl _, ?_, Or.inl rfl⟩
    intro q hq
    cases hq
  | cons q rest ih =>
    intro p
    have hstep : pyBest p (q :: rest) = pyBest (if p.2 < q.2 then q else p) rest := rfl
    obtain ⟨ih1, ih2, ih3⟩ := ih (if p.2 < q.2 then q else p)
    rw [hstep]
    have hple : p.2 ≤ (if p.2 < q.2 then q else p).2 := by split <;> omega
    have hqle : q.2 ≤ (if p.2 < q.2 then q else p).2 := by split <;> omega
    refine ⟨le_trans hple ih1, ?_, ?_⟩
    · intro x hx
      rcases List.mem_cons.mp hx with rfl | hx
      · exact le_trans hqle ih1
      · exact ih2 x hx
    · rcases ih3 with hbp | ⟨i, hi, hbe, hlt, hall⟩
      · by_cases hc : p.2 < q.2
        · right
          refine ⟨0, by simp, ?_, ?_, ?_⟩
          · rw [hbp, if_pos hc]
            rfl
          · rw [hbp, if_pos hc]
            simpa using hc
          · intro j hj
            omega
        · left
          rw [hbp, if_neg hc]
      · right
        refine ⟨i + 1, by simpa using hi, by simpa using hbe,
          lt_of_le_of_lt hple hlt, ?_⟩
        intro j hj
        rcases j with _ | j
        · simpa using lt_of_le_of_lt hqle hlt
        · simpa using hall j (by omega)

theorem pyMax_first_argmax (l : List (Str × Nat)) (hne : l ≠ []) :
    ∃ i, ∃ hi : i < l.length, pyMaxPair l = some (l.get ⟨i, hi⟩) ∧
      (∀ q ∈ l, q.2 ≤ (l.get ⟨i, hi⟩).2) ∧
      ∀ j, ∀ hj : j < i, (l.get ⟨j, Nat.lt_trans hj hi⟩).2 < (l.get ⟨i, hi⟩).2 := by
  rcases l with _ | ⟨p, rest⟩
  · exact absurd rfl hne
  · obtain ⟨h1, h2, h3⟩ := pyBest_spec rest p
    rcases h3 with hbp | ⟨i, hi, hbe, hlt, hall⟩
    · refine ⟨0, by simp, ?_, ?_, ?_⟩
      · show some (pyBest p rest) = _
        rw [hbp]
        rfl
      · intro x hx
        rcases List.mem_cons.mp hx with rfl | hx
        · simp [hbp]
        · have := h2 x hx
          rw [hbp] at this
          simpa using this
      · intro j hj
        omega
    · have hb2 : ((p :: rest).get ⟨i + 1, by simpa using hi⟩) = pyBest p rest := by
        rw [hbe]
        rfl
      refine ⟨i + 1, by simpa using hi, ?_, ?_, ?_⟩
      · show some (pyBest p rest) = _
        rw [hb2]
      · intro x hx
        rw [hb2]
        rcases List.mem_cons.mp hx with rfl | hx
        · omega
        · exact h2 x hx
      · intro j hj
        rw [hb2]
        rcases j with _ | j
        · simpa using hlt
        · simpa using hall j (by omega)

/-- C2: with pairwise-distinct domain ids, `classify` returns the default
domain when the text is empty, the taxonomy is empty, or every domain scores
zero; otherwise it returns the id of the first domain (in taxonomy order)
attaining the maximal keyword-count score — so a strictly-highest scorer
wins, and ties break to the earliest domain. -/
theorem C2_classify (C : Classifier) (text : Str)
    (hnd : (C.domains.map (fun d => d.id)).Nodup) :
    ((text = [] ∨ C.domains = [] ∨ maxScore C text = 0) →
      classify C text = C.default_domain) ∧
    (text ≠ [] → 0 < maxScore C text →
      ∃ i, ∃ hi : i < C.domains.length,
        classify C text = (C.domains.get ⟨i, hi⟩).id ∧
        domScore (lowerS text) (C.domains.get ⟨i, hi⟩) = maxScore C text ∧
        ∀ j, ∀ hj : j < i,
          domScore (lowerS text) (C.domains.get ⟨j, Nat.lt_trans hj hi⟩) <
            maxScore C text) := by
  have hscores := buildScores_nodup C (lowerS text) hnd
  have hvals : (C.domains.map (fun d => (d.id, domScore (lowerS text) d))).map
      (fun p => p.2) = C.domains.map (domScore (lowerS text)) := by
    rw [List.map_map]
    rfl
  constructor
  · intro hdef
    by_cases ht : text = []
    · unfold classify
      rw [if_pos (by simp [ht])]
    · unfold classify
      rw [if_neg (by simp [ht])]
      dsimp only
      rw [hscores]
      by_cases hd0 : C.domains = []
      · rw [hd0]
        rfl
      · rcases hdef with rfl | hd | hz
        · exact absurd rfl ht
        · exact absurd hd hd0
        · have hne2 : C.domains.map (fun d => (d.id, domScore (lowerS text) d)) ≠ [] := by
            simpa using hd0
          obtain ⟨i, hi, hmax, hub, hfirst⟩ := pyMax_first_argmax _ hne2
          rw [hmax]
          dsimp only
          rw [if_neg]
          intro hpos
          have hmem : ((C.domains.map (fun d => (d.id, domScore (lowerS text) d))).get
              ⟨i, hi⟩).2 ∈ C.domains.map (domScore (lowerS text)) := by
            rw [← hvals]
            exact List.mem_map_of_mem _ (List.get_mem _ _ _)
          have hle := le_foldr_max _ _ hmem
          unfold maxScore at hz
          omega
  · intro ht hpos
    have hd0 : C.domains ≠ [] := by
      intro h0
      unfold maxScore at hpos
      rw [h0] at hpos
      simp at hpos
    have hne2 : C.domains.map (fun d => (d.id, domScore (lowerS text) d)) ≠ [] := by
      simpa using hd0
    obtain ⟨i, hi, hmax, hub, hfirst⟩ := pyMax_first_argmax _ hne2
    have hilen : i < C.domains.length := by simpa using hi
    have hget : ∀ j, ∀ hj : j < (C.domains.map (fun d => (d.id, domScore (lowerS text) d))).length,
        (C.domains.map (fun d => (d.id, domScore (lowerS text) d))).get ⟨j, hj⟩ =
          ((C.domains.get ⟨j, by simpa using hj⟩).id,
            domScore (lowerS text) (C.domains.get ⟨j, by simpa using hj⟩)) := by
      intro j hj
      simp [List.get_eq_getElem]
    have hmaxeq : ((C.domains.map (fun d => (d.id, domScore (lowerS text) d))).get
        ⟨i, hi⟩).2 = maxScore C text := by
      refine le_antisymm ?_ ?_
      · apply le_foldr_max
        rw [← hvals]
        exact List.mem_map_of_mem _ (List.get_mem _ _ _)
      · apply foldr_max_le
        intro x hx
        rw [← hvals] at hx
        rw [List.mem_map] at hx
        obtain ⟨q, hq, rfl⟩ := hx
        exact hub q hq
    refine ⟨i, hilen, ?_, ?_, ?_⟩
    · unfold classify
      rw [if_neg (by simp [ht])]
      dsimp only
      rw [hscores, hmax]
      dsimp only
      rw [if_pos (by omega)]
      rw [hget i hi]
    · rw [hget i hi] at hmaxeq
      exact hmaxeq
    · intro j hj
      have hjlen : j < (C.domains.map (fun d => (d.id, domScore (lowerS text) d))).length := by
        simpa using Nat.lt_trans hj hilen
      have := hfirst j hj
      rw [hget j hjlen, hmaxeq] at this
      dsimp only at this
      exact this

def C2wC : Classifier :=
  { domains :=
      [{ id := sl "monitoring", keywords := [sl "monitor", sl "alert"] },
       { id := sl "storage", keywords := [sl "storage"] }],
    default_domain := sl "identity-governance" }

theorem C2_classify_witness :
    classify C2wC [] = C2wC.default_domain ∧
    classify C2wC (sl "Azure Monitor alert policy") = sl "monitoring" := by
  constructor
  · exact (C2_classify C2wC [] (by decide)).1 (Or.inl rfl)
  · obtain ⟨i, hi, heq, hmax, -⟩ :=
      (C2_classify C2wC (sl "Azure Monitor alert policy") (by decide)).2
        (by decide) (by decide)
    rw [heq]
    have hi2 : i < 2 := hi
    interval_cases i
    · rfl
    · have hmax2 : domScore (lowerS (sl "Azure Monitor alert policy"))
          (C2wC.domains.get ⟨1, by decide⟩) =
          maxScore C2wC (sl "Azure Monitor alert policy") := hmax
      exact absurd hmax2 (by decide)

/-! ## C4: one-choice validity boundary (corrected) -/

def C4cexQ : ParsedQuestion :=
  { text := sl "Pick one", choices := [{ label := 'A', text := sl "only option" }],
    correct_answers := ['A'] }

/-- C4 counterexample: a non-study question with non-empty text, exactly one
choice and one correct answer has `is_valid = true` (the dataclass only
checks non-emptiness), refuting the claim that such a question is invalid. -/
theorem C4_validity_counterexample :
    C4cexQ.question_type ≠ sl "study" ∧ C4cexQ.text ≠ [] ∧
    C4cexQ.choices.length = 1 ∧ C4cexQ.correct_answers.length = 1 ∧
    is_valid C4cexQ = true :=
  ⟨by decide, by decide, by decide, by decide, by decide⟩

/-- C4 (amended): a non-study question with non-empty text, one choice and
one correct answer increments `broken_choices` but is still counted valid
(`is_valid` holds, `valid_questions` increments); with two choices it is
valid and `broken_choices` is untouched. -/
theorem C4_validity_amended :
    (∀ (C : Classifier) (r0 : ParseReport) (q : ParsedQuestion),
      q.question_type ≠ sl "study" → q.text ≠ [] →
      q.choices.length = 1 → q.correct_answers.length = 1 →
      (runStats C r0 [q]).broken_choices = r0.broken_choices + 1 ∧
      is_valid q = true ∧
      (runStats C r0 [q]).valid_questions = r0.valid_questions + 1) ∧
    (∀ (C : Classifier) (r0 : ParseReport) (q : ParsedQuestion),
      q.question_type ≠ sl "study" → q.text ≠ [] →
      q.choices.length = 2 → q.correct_answers.length = 1 →
      (runStats C r0 [q]).broken_choices = r0.broken_choices ∧
      is_valid q = true ∧
      (runStats C r0 [q]).valid_questions = r0.valid_questions + 1) := by
  have key : ∀ (C : Classifier) (r0 : ParseReport) (q : ParsedQuestion),
      q.question_type ≠ sl "study" → q.text ≠ [] →
      (q.choices.length = 1 ∨ q.choices.length = 2) → q.correct_answers.length = 1 →
      (runStats C r0 [q]).broken_choices =
        r0.broken_choices + (if q.choices.length < 2 then 1 else 0) ∧
      is_valid q = true ∧
      (runStats C r0 [q]).valid_questions = r0.valid_questions + 1 := by
    intro C r0 q htype htext hchoices hans
    have hansne : q.correct_answers.isEmpty = false := by
      rcases h : q.correct_answers with _ | _
      · rw [h] at hans
        cases hans
      · rfl
    have hchne : q.choices.isEmpty = false := by
      rcases h : q.choices with _ | _
      · rw [h] at hchoices
        simp at hchoices
      · rfl
    have hvalid : is_valid q = true := by
      unfold is_valid
      rw [if_neg htype]
      simp [hansne, hchne, htext]
    refine ⟨?_, hvalid, ?_⟩ <;>
    · unfold runStats
      rw [List.foldl_cons, List.foldl_nil]
      unfold processQuestion
      dsimp only
      simp only [if_pos htype,
        if_neg (show ¬ q.correct_answers.isEmpty = true by simp [hansne]),
        if_neg (show ¬ (([] : List Str).contains (stable_id q) = true) by simp),
        if_pos hvalid]
      by_cases hlt : q.choices.length < 2 <;> simp [hlt]
  constructor
  · intro C r0 q htype htext hchoices hans
    have := key C r0 q htype htext (Or.inl hchoices) hans
    rw [if_pos (by omega)] at this
    exact this
  · intro C r0 q htype htext hchoices hans
    have := key C r0 q htype htext (Or.inr hchoices) hans
    rw [if_neg (by omega)] at this
    simpa using this

theorem C4_validity_amended_witness :
    ((runStats { domains := [], default_domain := sl "d" } {} [C4cexQ]).broken_choices =
      ParseReport.broken_choices {} + 1 ∧
    is_valid C4cexQ = true ∧
    (runStats { domains := [], default_domain := sl "d" } {} [C4cexQ]).valid_questions =
      ParseReport.valid_questions {} + 1) ∧
    ((runStats { domains := [], default_domain := sl "d" } {} [C1w1]).broken_choices =
      ParseReport.broken_choices {} ∧
    is_valid C1w1 = true ∧
    (runStats { domains := [], default_domain := sl "d" } {} [C1w1]).valid_questions =
      ParseReport.valid_questions {} + 1) :=
  ⟨C4_validity_amended.1 _ {} C4cexQ (by decide) (by decide) (by decide) (by decide),
   C4_validity_amended.2 _ {} C1w1 (by decide) (by decide) (by decide) (by decide)⟩

/-! ## C8: in-run duplicate detection -/

/-- The per-question decoration the stats loop performs, split out of
`processQuestion` for reasoning (`dup` is the seen-before flag). -/
def decorate (C : Classifier) (dup : Bool) (q0 : ParsedQuestion) : ParsedQuestion :=
  let q := { q0 with domain_id := some (classify C q0.text) }
  let q :=
    if q0.question_type ≠ sl "study" then
      { q with issues :=
          ((q.issues ++ (if q0.correct_answers.isEmpty then [sl "Missing correct answer"] else []))
            ++ (if q0.choices.length < 2 then [sl "Less than 2 choices"] else []))
          ++ choiceWarnings q0.choices }
    else q
  if dup then { q with issues := q.issues ++ [sl "Duplicate question"] } else q

theorem processQuestion_eq (C : Classifier) (r : ParseReport) (seen : List Str)
    (q0 : ParsedQuestion) :
    processQuestion C (r, seen) q0 =
      ({ r with
          total_questions := r.total_questions + 1,
          missing_answers := r.missing_answers +
            (if q0.question_type ≠ sl "study" ∧ q0.correct_answers.isEmpty then 1 else 0),
          broken_choices := r.broken_choices +
            (if q0.question_type ≠ sl "study" ∧ q0.choices.length < 2 then 1 else 0),
          duplicates := r.duplicates + (if seen.contains (stable_id q0) then 1 else 0),
          valid_questions := r.valid_questions + (if is_valid q0 then 1 else 0),
          questions := r.questions ++ [decorate C (seen.contains (stable_id q0)) q0] },
       if seen.contains (stable_id q0) then seen else stable_id q0 :: seen) := by
  unfold processQuestion decorate
  by_cases h1 : q0.question_type ≠ sl "study" <;>
    by_cases h2 : q0.correct_answers.isEmpty = true <;>
    by_cases h3 : q0.choices.length < 2 <;>
    by_cases h4 : stable_id q0 ∈ seen <;>
    by_cases h5 : is_valid q0 = true <;>
    simp [h1, h2, h3, h4, h5]

/-- The duplicate flags the loop raises, question by question, starting from
a given seen-id set. -/
def dupFlags (seen : List Str) : List ParsedQuestion → List Bool
  | [] => []
  | q :: qs =>
    let sid := stable_id q
    seen.contains sid ::
      dupFlags (if seen.contains sid then seen else sid :: seen) qs

theorem dupFlags_length (qs : List ParsedQuestion) :
    ∀ seen, (dupFlags seen qs).length = qs.length := by
  induction qs with
  | nil => intro seen; rfl
  | cons q qs ih =>
    intro seen
    unfold dupFlags
    simp [ih]

theorem dupFlags_cons (seen : List Str) (q : ParsedQuestion) (qs : List ParsedQuestion) :
    dupFlags seen (q :: qs) =
      seen.contains (stable_id q) ::
        dupFlags (if seen.contains (stable_id q) then seen
                  else stable_id q :: seen) qs := rfl

theorem runStats_spec (C : Classifier) (qs : List ParsedQuestion) :
    ∀ (r : ParseReport) (seen : List Str),
      (qs.foldl (processQuestion C) (r, seen)).1.questions =
        r.questions ++ (qs.zip (dupFlags seen qs)).map (fun p => decorate C p.2 p.1) ∧
      (qs.foldl (processQuestion C) (r, seen)).1.duplicates =
        r.duplicates + (dupFlags seen qs).countP id := by
  induction qs with
  | nil => intro r seen; simp [dupFlags]
  | cons q qs ih =>
    intro r seen
    rw [List.foldl_cons, processQuestion_eq]
    obtain ⟨ih1, ih2⟩ := ih _ _
    constructor
    · rw [ih1, dupFlags_cons]
      dsimp only
      rw [List.zip_cons_cons, List.map_cons, List.append_assoc, List.singleton_append]
    · rw [ih2, dupFlags_cons, List.countP_cons]
      dsimp only
      by_cases h : seen.contains (stable_id q) = true <;> simp [h] <;> omega

theorem dupFlags_getD (qs : List ParsedQuestion) :
    ∀ (seen : List Str) (i : Nat), i < qs.length →
      ((dupFlags seen qs).getD i false = true ↔
        (stable_id (qs.getD i default) ∈ seen ∨
          ∃ j, j < i ∧ stable_id (qs.getD j default) = stable_id (qs.getD i default))) := by
  induction qs with
  | nil => intro seen i hi; cases hi
  | cons q qs ih =>
    intro seen i hi
    unfold dupFlags
    rcases i with _ | i
    · simp [List.getD]
    · have hi2 : i < qs.length := by simpa using hi
      have hstep : ((seen.contains (stable_id q) ::
          dupFlags (if seen.contains (stable_id q) then seen else stable_id q :: seen) qs).getD
            (i + 1) false) =
          (dupFlags (if seen.contains (stable_id q) then seen else stable_id q :: seen) qs).getD
            i false := rfl
      rw [hstep, ih _ i hi2]
      constructor
      · rintro (hmem | ⟨j, hj, hje⟩)
        · by_cases hc : seen.contains (stable_id q) = true
          · rw [if_pos hc] at hmem
            exact Or.inl hmem
          · rw [if_neg hc] at hmem
            rcases List.mem_cons.mp hmem with heq | hmem
            · exact Or.inr ⟨0, by omega, heq.symm⟩
            · exact Or.inl hmem
        · exact Or.inr ⟨j + 1, by omega, hje⟩
      · rintro (hmem | ⟨j, hj, hje⟩)
        · by_cases hc : seen.contains (stable_id q) = true
          · rw [if_pos hc]
            exact Or.inl hmem
          · rw [if_neg hc]
            exact Or.inl (List.mem_cons_of_mem _ hmem)
        · rcases j with _ | j
          · have hje2 : stable_id q = stable_id (qs.getD i default) := hje
            by_cases hc : seen.contains (stable_id q) = true
            · rw [if_pos hc]
              exact Or.inl (hje2 ▸ List.mem_of_elem_eq_true hc)
            · rw [if_neg hc]
              exact Or.inl (hje2 ▸ List.mem_cons_self _ _)
          · exact Or.inr ⟨j, by omega, hje⟩

theorem choiceWarnings_ne_dup (cs : List Choice) :
    ∀ m ∈ choiceWarnings cs, m ≠ sl "Duplicate question" := by
  intro m hm heq
  unfold choiceWarnings at hm
  rw [List.mem_flatMap] at hm
  obtain ⟨c, -, hmc⟩ := hm
  have hhead : m.head? = some 'C' := by
    split at hmc
    · rcases List.mem_singleton.mp hmc with rfl
      rfl
    · split at hmc
      · rcases List.mem_singleton.mp hmc with rfl
        rfl
      · cases hmc
  rw [heq] at hhead
  cases hhead

theorem decorate_dup_mem (C : Classifier) (dup : Bool) (q0 : ParsedQuestion)
    (hiss : q0.issues = []) :
    ((sl "Duplicate question") ∈ (decorate C dup q0).issues ↔ dup = true) := by
  unfold decorate
  dsimp only
  have hwarn := choiceWarnings_ne_dup q0.choices
  have hnw : sl "Duplicate question" ∉ choiceWarnings q0.choices :=
    fun hm => hwarn _ hm rfl
  have hne1 : sl "Duplicate question" ≠ sl "Missing correct answer" := by decide
  have hne2 : sl "Duplicate question" ≠ sl "Less than 2 choices" := by decide
  by_cases h1 : q0.question_type ≠ sl "study" <;>
    by_cases h2 : q0.correct_answers.isEmpty = true <;>
    by_cases h3 : q0.choices.length < 2 <;>
    rcases dup with _ | _ <;>
    simp [h1, h2, h3, hiss, hnw, hne1, hne2]

theorem countP_zip_snd :
    ∀ (qs : List ParsedQuestion) (bs : List Bool), qs.length = bs.length →
      List.countP (fun p => p.2) (qs.zip bs) = List.countP id bs := by
  intro qs
  induction qs with
  | nil =>
    intro bs h
    rcases bs with _ | _
    · rfl
    · cases h
  | cons q qs ih =>
    intro bs h
    rcases bs with _ | ⟨b, bs⟩
    · cases h
    · rw [List.zip_cons_cons, List.countP_cons, List.countP_cons, ih bs (by simpa using h)]
      rfl

/-- C8: within one run of the stats loop (fresh seen-set per `parse_pdf`
call), a question is flagged "Duplicate question" exactly when an earlier
question of the *same* run shares its `stable_id`; flagged questions are not
removed (the output list keeps every question, in order), and the
`duplicates` counter equals the number of flagged questions.  Since the
flag condition only mentions earlier questions of the same list, questions
from two separate runs are never compared. -/
theorem C8_duplicate_scope (C : Classifier) (r0 : ParseReport) (qs : List ParsedQuestion)
    (hq : r0.questions = []) (hdup : r0.duplicates = 0)
    (hiss : ∀ q ∈ qs, q.issues = []) :
    (runStats C r0 qs).questions.length = qs.length ∧
    (∀ i, i < qs.length →
      ((sl "Duplicate question") ∈ ((runStats C r0 qs).questions.getD i default).issues ↔
        ∃ j, j < i ∧ stable_id (qs.getD j default) = stable_id (qs.getD i default))) ∧
    (runStats C r0 qs).duplicates =
      ((runStats C r0 qs).questions.filter
        (fun q => decide ((sl "Duplicate question") ∈ q.issues))).length := by
  obtain ⟨ha, hb⟩ := runStats_spec C qs r0 []
  have hq1 : (runStats C r0 qs).questions =
      (qs.zip (dupFlags [] qs)).map (fun p => decorate C p.2 p.1) := by
    unfold runStats
    rw [ha, hq, List.nil_append]
  have hq2 : (runStats C r0 qs).duplicates = (dupFlags [] qs).countP id := by
    unfold runStats
    rw [hb, hdup, Nat.zero_add]
  have hflen : (dupFlags [] qs).length = qs.length := dupFlags_length qs []
  have hzlen : (qs.zip (dupFlags [] qs)).length = qs.length := by
    rw [List.length_zip, hflen]
    omega
  refine ⟨?_, ?_, ?_⟩
  · rw [hq1, List.length_map, hzlen]
  · intro i hi
    have hi2 : i < ((qs.zip (dupFlags [] qs)).map (fun p => decorate C p.2 p.1)).length := by
      rw [List.length_map, hzlen]
      exact hi
    have hzb : i < (qs.zip (dupFlags [] qs)).length := by rw [hzlen]; exact hi
    have hfb : i < (dupFlags [] qs).length := by rw [hflen]; exact hi
    rw [hq1, List.getD_eq_getElem _ _ hi2, List.getElem_map]
    have hzget : (qs.zip (dupFlags [] qs))[i] =
        (qs[i], (dupFlags [] qs)[i]) := List.getElem_zip
    rw [hzget]
    rw [decorate_dup_mem C _ _ (hiss _ (List.getElem_mem hi))]
    have hflag : (dupFlags [] qs)[i] =
        (dupFlags [] qs).getD i false := by
      rw [List.getD_eq_getElem _ _ hfb]
    rw [hflag, dupFlags_getD qs [] i hi]
    have hgi : qs.getD i default = qs[i] := List.getD_eq_getElem _ _ hi
    simp
  · rw [hq1, hq2, ← List.countP_eq_length_filter, List.countP_map]
    rw [← countP_zip_snd qs (dupFlags [] qs) hflen.symm]
    apply List.countP_congr
    intro x hx
    obtain ⟨hx1, -⟩ := List.of_mem_zip hx
    simp only [Function.comp_apply, decide_eq_true_eq, id]
    rw [decorate_dup_mem C _ _ (hiss _ hx1)]

def C8wq : ParsedQuestion :=
  { text := sl "Repeated question body", choices := [{ label := 'A', text := sl "yes" }],
    correct_answers := ['A'] }

theorem C8_duplicate_scope_witness :
    (runStats { domains := [], default_domain := sl "d" } {} [C8wq, C8wq]).questions.length =
      ([C8wq, C8wq] : List ParsedQuestion).length ∧
    (runStats { domains := [], default_domain := sl "d" } {} [C8wq, C8wq]).duplicates =
      ((runStats { domains := [], default_domain := sl "d" } {} [C8wq, C8wq]).questions.filter
        (fun q => decide ((sl "Duplicate question") ∈ q.issues))).length :=
  ⟨(C8_duplicate_scope _ {} [C8wq, C8wq] rfl rfl (by decide)).1,
   (C8_duplicate_scope _ {} [C8wq, C8wq] rfl rfl (by decide)).2.2⟩

/-! ## C5: correct answers vs. choice labels (corrected) -/

set_option maxRecDepth 100000
set_option maxHeartbeats 2000000

theorem determine_type_ne_study (qt : Str) (cs : List Choice) :
    determine_type qt cs ≠ sl "study" := by
  unfold determine_type
  dsimp only
  repeat' split
  all_goals decide

theorem parseGradedQuestion_qtype (b t : Str) (e : Option Str) (n : Nat) :
    (parseGradedQuestion b t e n).question_type = determine_type t (extract_choices b) := rfl

def C5cexBlock : Str := sl "Q1\nPick the best one\nA. foo\nB. bar\nAnswer: C"

/-- C5 counterexample: this block parses to a graded (single) question whose
correct-answer list is `[C]` while its choice labels are `[A, B]` — the
extracted answer is not a label of any choice, refuting the subset claim. -/
theorem C5_subset_counterexample :
    ((parse_single_question C5cexBlock).map
      (fun q => (q.question_type, q.correct_answers, q.choices.map (fun c => c.label)))) =
      some (sl "single", ['C'], ['A', 'B']) ∧
    ('C' ∉ (['A', 'B'] : List Char)) :=
  ⟨by decide, by decide⟩

/-- C5 (amended): a study-kind parse result has an empty correct-answer set;
for graded kinds the correct answers are exactly the letters the answer
patterns extract from the block, with no constraint tying them to the choice
labels. -/
theorem C5_answers_amended (block : Str) (q : ParsedQuestion)
    (h : parse_single_question block = some q) :
    (q.question_type = sl "study" → q.correct_answers = []) ∧
    (q.question_type ≠ sl "study" → q.correct_answers = extract_answers block) := by
  unfold parse_single_question at h
  dsimp only at h
  split at h
  · cases h
  · split at h
    · cases h
      exact ⟨fun _ => rfl, fun hne => absurd rfl hne⟩
    · cases h
      refine ⟨fun hst => ?_, fun _ => rfl⟩
      rw [parseGradedQuestion_qtype] at hst
      exact absurd hst (determine_type_ne_study _ _)

def C5wBlock : Str := sl "Q9\nHOTSPOT\nPick the right area now please\n"

def C5wQ : ParsedQuestion := (parse_single_question C5wBlock).getD default

theorem C5_answers_amended_witness : C5wQ.correct_answers = [] :=
  (C5_answers_amended C5wBlock C5wQ (by decide)).1 (by decide)

/-! ## C10: study-question invariants -/

theorem explanation_final_truthy (o : Option Str) (fb : Str) (hfb : fb ≠ []) :
    ∃ e, (if optTruthy o then o else some fb) = some e ∧ e ≠ [] := by
  by_cases h : optTruthy o = true
  · rw [if_pos h]
    unfold optTruthy at h
    rcases o with _ | e
    · cases h
    · exact ⟨e, rfl, by simpa using h⟩
  · rw [if_neg h]
    exact ⟨fb, rfl, hfb⟩

theorem parseStudyQuestion_expl_truthy (b t : Str) (e : Option Str) (n : Nat) :
    ∃ x, (parseStudyQuestion b t e n).explanation = some x ∧ x ≠ [] := by
  unfold parseStudyQuestion
  dsimp only
  exact explanation_final_truthy _ _ (by split <;> decide)

theorem is_valid_study (q : ParsedQuestion) (hq : q.question_type = sl "study")
    (ht : q.text ≠ []) (x : Str) (he : q.explanation = some x) (hx : x ≠ []) :
    is_valid q = true := by
  unfold is_valid
  rw [if_pos hq, he]
  obtain ⟨a, l, hqt⟩ := List.exists_cons_of_ne_nil ht
  obtain ⟨b, m, hx2⟩ := List.exists_cons_of_ne_nil hx
  rw [hqt, hx2]
  rfl

/-- C10: every study-kind question `_parse_single_question` returns has no
choices, no correct answers, and a non-`None`, non-empty explanation (a
kind-specific placeholder is synthesized when nothing usable is found); and
whenever its text is non-empty `is_valid` holds. -/
theorem C10_study_invariants (block : Str) (q : ParsedQuestion)
    (h : parse_single_question block = some q) (hst : q.question_type = sl "study") :
    q.choices = [] ∧ q.correct_answers = [] ∧
    (∃ e, q.explanation = some e ∧ e ≠ []) ∧
    (q.text ≠ [] → is_valid q = true) := by
  unfold parse_single_question at h
  dsimp only at h
  split at h
  · cases h
  · split at h
    · cases h
      obtain ⟨x, hx, hxe⟩ := parseStudyQuestion_expl_truthy block _ _ _
      exact ⟨rfl, rfl, ⟨x, hx, hxe⟩,
        fun htext => is_valid_study _ rfl htext x hx hxe⟩
    · cases h
      rw [parseGradedQuestion_qtype] at hst
      exact absurd hst (determine_type_ne_study _ _)

def C10wBlock : Str := sl "Q3\nDRAGDROP\nArrange the deployment steps correctly\n"

def C10wQ : ParsedQuestion := (parse_single_question C10wBlock).getD default

theorem C10_study_invariants_witness :
    C10wQ.choices = [] ∧ C10wQ.correct_answers = [] ∧
    optTruthy C10wQ.explanation = true ∧ is_valid C10wQ = true := by
  obtain ⟨h1, h2, ⟨e, he, hee⟩, h4⟩ :=
    C10_study_invariants C10wBlock C10wQ (by decide) (by decide)
  refine ⟨h1, h2, ?_, h4 (by decide)⟩
  obtain ⟨a, l, hel⟩ := List.exists_cons_of_ne_nil hee
  rw [he, hel]
  rfl

end AZ104
